import Mathlib

/-!
Shallow embedding of the release-resolution and caching pipeline of the
timeboxd repository (src/src/cache.rs, src/src/tmdb.rs, src/src/processor.rs,
src/src/models.rs), together with theorems settling the frozen claims.

Conventions:
* jiff civil dates are modelled as (year, month, day) triples with the
  lexicographic order (jiff derives its order on those fields).
* machine integers (i32, i64, i16) are modelled as unbounded Int; the only
  saturating operation in scope, i64::saturating_sub inside the freshness
  checks, coincides with plain subtraction away from the i64 bounds.
* database tables are lists of row structures; the autoincrement `id`
  column is omitted (no code path reads it).  The meta tables carry a
  unique index on (tmdb_id, country) which the upsert code relies on.
* async, logging and SQL transport are erased; every modelled operation is
  the pure state transformer / reader the Rust function performs between
  `begin` and `commit`.
-/

/-- A calendar date as in jiff's `civil::Date`: year, month, day. -/
structure Date where
  year : Int
  month : Nat
  day : Nat
deriving DecidableEq, Repr

/-- Lexicographic `≤` on dates, matching jiff's derived order. -/
def dateLE (a b : Date) : Bool :=
  a.year < b.year ||
    (a.year == b.year &&
      (a.month < b.month || (a.month == b.month && a.day ≤ b.day)))

/-- Gregorian leap-year rule used by jiff's calendar. -/
def isLeapYear (y : Int) : Bool :=
  (y % 4 == 0 && y % 100 != 0) || y % 400 == 0

/-- Days in a month of the proleptic Gregorian calendar. -/
def daysInMonth (y : Int) (m : Nat) : Nat :=
  if m == 2 then (if isLeapYear y then 29 else 28)
  else if m == 4 || m == 6 || m == 9 || m == 11 then 30
  else 31

/-- jiff date-minus-years arithmetic: the day is constrained to the last
valid day of the resulting month (Feb 29 minus a year becomes Feb 28). -/
def subYears (d : Date) (n : Int) : Date :=
  { year := d.year - n, month := d.month,
    day := min d.day (daysInMonth (d.year - n) d.month) }

/-- jiff date-plus-years arithmetic, constrained like `subYears`. -/
def addYears (d : Date) (n : Int) : Date := subYears d (-n)

/-- jiff date-plus-months arithmetic, day constrained to the target month. -/
def addMonths (d : Date) (n : Nat) : Date :=
  let m0 : Nat := d.month - 1 + n
  let y : Int := d.year + (m0 / 12 : Nat)
  let m : Nat := m0 % 12 + 1
  { year := y, month := m, day := min d.day (daysInMonth y m) }

/-- Value of a decimal digit character, if it is one. -/
def digitVal (c : Char) : Option Nat :=
  if c.isDigit then some (c.toNat - 48) else none

/-- Parse the ISO `YYYY-MM-DD` form produced by jiff's `Date` display and
accepted by its `FromStr`, including the calendar-validity checks
(month 1–12, day within the month).  Anything else fails. -/
def parseDate (s : String) : Option Date :=
  match s.toList with
  | [y1, y2, y3, y4, '-', m1, m2, '-', d1, d2] =>
    match digitVal y1, digitVal y2, digitVal y3, digitVal y4,
          digitVal m1, digitVal m2, digitVal d1, digitVal d2 with
    | some a, some b, some c, some d, some e, some f, some g, some h =>
      let year : Int := ((a * 1000 + b * 100 + c * 10 + d : Nat) : Int)
      let month : Nat := e * 10 + f
      let day : Nat := g * 10 + h
      if 1 ≤ month && month ≤ 12 && 1 ≤ day && day ≤ daysInMonth year month
      then some { year := year, month := month, day := day }
      else none
    | _, _, _, _, _, _, _, _ => none
  | _ => none

/-- Left-pad a natural number's decimal digits to a given width. -/
def padNum (n width : Nat) : String :=
  let s := toString n
  String.mk (List.replicate (width - s.length) '0') ++ s

/-- The `to_string` rendering of a jiff civil date (`YYYY-MM-DD`,
sign-prefixed for negative years). -/
def Date.render (d : Date) : String :=
  (if d.year < 0 then "-" ++ padNum d.year.natAbs 4 else padNum d.year.toNat 4)
    ++ "-" ++ padNum d.month 2 ++ "-" ++ padNum d.day 2

/-- `models.rs` `ReleaseType`. -/
inductive ReleaseType where
  | Theatrical
  | Digital
deriving DecidableEq, Repr, BEq

/-- `ReleaseType::as_tmdb_code`. -/
def ReleaseType.as_tmdb_code : ReleaseType → Int
  | .Theatrical => 3
  | .Digital => 4

/-- `ReleaseType::from_tmdb_code`. -/
def ReleaseType.from_tmdb_code (code : Int) : Option ReleaseType :=
  if code == 3 then some .Theatrical
  else if code == 4 then some .Digital
  else none

/-- `models.rs` `ReleaseDate`. -/
structure ReleaseDate where
  date : Date
  release_type : ReleaseType
  note : Option String
deriving DecidableEq, Repr

/-- `models.rs` `ReleaseCategory`. -/
inductive ReleaseCategory where
  | LocalUpcoming
  | LocalAlreadyAvailable
  | NoReleases
deriving DecidableEq, Repr

/-- `models.rs` `CountryReleases`. -/
structure CountryReleases where
  country : String
  theatrical : List ReleaseDate
  streaming : List ReleaseDate
deriving DecidableEq, Repr

/-- `models.rs` `ReleaseDatesResult`. -/
structure ReleaseDatesResult where
  requested_country : CountryReleases
  all_countries : List CountryReleases
deriving DecidableEq, Repr

/-- Rust `str::contains` on a pattern list: the pattern occurs as a
contiguous substring. -/
def charsContain (pat : List Char) : List Char → Bool
  | [] => pat.isEmpty
  | c :: rest => pat.isPrefixOf (c :: rest) || charsContain pat rest

/-- Rust `String::contains(pat)` (substring search). -/
def strContains (s pat : String) : Bool :=
  charsContain pat.toList s.toList

/-! ## Upstream client (`tmdb.rs`, `TmdbClient::get_release_dates`)

The HTTP transport, rate limiter and timestamp parsing are erased: a raw
upstream entry is modelled after its `release_date` timestamp has been
parsed and converted to a UTC calendar date (a parse failure aborts the
whole call with a recoverable error and produces no list at all, so it is
outside every per-list claim).  The mock branch taken when the access
token is empty is modelled separately by `mock_release_dates`. -/

/-- One entry of the upstream `release_dates` payload for one country,
with the timestamp already reduced to its UTC calendar date. -/
structure RawEntry where
  date : Date
  type_ : Int
  note : Option String
deriving DecidableEq, Repr

/-- One country block of the upstream `release_dates` payload. -/
structure RawCountry where
  iso_3166_1 : String
  release_dates : List RawEntry
deriving DecidableEq, Repr

/-- Rust `str::trim`: strip leading and trailing whitespace. -/
def strTrim (s : String) : String :=
  String.mk
    (((s.toList.dropWhile Char.isWhitespace).reverse.dropWhile
        Char.isWhitespace).reverse)

/-- `rd.note.and_then(trim, keep if non-empty)` from the per-entry loop. -/
def normalizeNote : Option String → Option String
  | none => none
  | some s => let t := strTrim s; if t == "" then none else some t

/-- The per-country loop body: split entries into future/past theatrical
and streaming lists, skipping entries whose type code is neither 3 nor 4,
in payload order.  `date >= today` selects the future side. -/
def splitReleases (today : Date) : List RawEntry →
    List ReleaseDate × List ReleaseDate × List ReleaseDate × List ReleaseDate
  | [] => ([], [], [], [])
  | rd :: rest =>
    let (tf, sf, tp, sp) := splitReleases today rest
    match ReleaseType.from_tmdb_code rd.type_ with
    | none => (tf, sf, tp, sp)
    | some kind =>
      let out : ReleaseDate :=
        { date := rd.date, release_type := kind, note := normalizeNote rd.note }
      if dateLE today rd.date then
        match kind with
        | .Theatrical => (out :: tf, sf, tp, sp)
        | .Digital => (tf, out :: sf, tp, sp)
      else
        match kind with
        | .Theatrical => (tf, sf, out :: tp, sp)
        | .Digital => (tf, sf, tp, out :: sp)

/-- `sort_by_key(|r| r.date)`: Rust's stable sort by date. -/
def sortByDate (l : List ReleaseDate) : List ReleaseDate :=
  List.mergeSort l (fun a b => dateLE a.date b.date)

/-- The `dedup_by_key` key: `(date, type code, note)`. -/
def releaseKey (r : ReleaseDate) : Date × Int × Option String :=
  (r.date, r.release_type.as_tmdb_code, r.note)

/-- Rust `Vec::dedup_by_key`: remove all but the first of each run of
consecutive elements with equal key. -/
def dedupByKey : List ReleaseDate → List ReleaseDate
  | [] => []
  | [a] => [a]
  | a :: b :: rest =>
    if releaseKey a = releaseKey b then dedupByKey (a :: rest)
    else a :: dedupByKey (b :: rest)

/-- Rust `Iterator::max_by_key(|r| r.date)`: the last element attaining
the maximal date, `none` on an empty list. -/
def maxByDate : List ReleaseDate → Option ReleaseDate
  | [] => none
  | a :: rest =>
    some (rest.foldl (fun acc r => if dateLE acc.date r.date then r else acc) a)

/-- The whole per-country body of `get_release_dates`: split, sort,
dedup the future lists, and backfill at most one synthetic
"Already available" entry per kind when that kind has past entries, no
future entries, and its most recent past date is within the last 2
years. -/
def processCountry (today : Date) (rc : RawCountry) : CountryReleases :=
  let (tf, sf, tp, sp) := splitReleases today rc.release_dates
  let theatrical_future := dedupByKey (sortByDate tf)
  let streaming_future := dedupByKey (sortByDate sf)
  let theatrical_past := sortByDate tp
  let streaming_past := sortByDate sp
  let has_past_theatrical := !theatrical_past.isEmpty
  let has_past_streaming := !streaming_past.isEmpty
  let two_years_ago := subYears today 2
  let theatrical :=
    if has_past_theatrical && theatrical_future.isEmpty then
      match maxByDate theatrical_past with
      | some latest =>
        if dateLE two_years_ago latest.date then
          theatrical_future ++
            [{ date := latest.date, release_type := .Theatrical,
               note := some "Already available" }]
        else theatrical_future
      | none => theatrical_future
    else theatrical_future
  let streaming :=
    if has_past_streaming && streaming_future.isEmpty then
      match maxByDate streaming_past with
      | some latest =>
        if dateLE two_years_ago latest.date then
          streaming_future ++
            [{ date := latest.date, release_type := .Digital,
               note := some "Already available" }]
        else streaming_future
      | none => streaming_future
    else streaming_future
  { country := rc.iso_3166_1, theatrical := theatrical, streaming := streaming }

/-- `get_release_dates` on a successfully parsed payload: process every
country and pick out the requested one (empty if absent). -/
def getReleaseDatesResult (today : Date) (results : List RawCountry)
    (country : String) : ReleaseDatesResult :=
  let all_countries := results.map (processCountry today)
  let requested_country :=
    (all_countries.find? (fun c => c.country == country)).getD
      { country := country, theatrical := [], streaming := [] }
  { requested_country := requested_country, all_countries := all_countries }

/-- The mock branch of `get_release_dates`, taken when the access token is
empty: one synthetic theatrical date a year ahead and one streaming date
three months later, both under the requested country only;
`all_countries` is left empty. -/
def mock_release_dates (today : Date) (country : String) : ReleaseDatesResult :=
  let future_date := addYears today 1
  { requested_country :=
      { country := country,
        theatrical := [{ date := future_date, release_type := .Theatrical,
                         note := some "Mock theatrical release" }],
        streaming := [{ date := addMonths future_date 3, release_type := .Digital,
                        note := some "Mock streaming release" }] },
    all_countries := [] }

/-! ## Persistent cache (`cache.rs`, `CacheManager`)

Each table is a list of rows; `id` autoincrement columns are omitted.
`release_cache_meta` and `provider_cache_meta` have a unique index on
(tmdb_id, country) — the `on_conflict` upserts target it — so stores
reachable through the modelled writes keep meta keys distinct. -/

/-- `entities::release_cache::Model` (without the autoincrement id). -/
structure ReleaseRow where
  tmdb_id : Int
  country : String
  release_date : String
  release_type : Int
  note : Option String
  cached_at : Int
deriving DecidableEq, Repr

/-- A `release_cache_meta` / `provider_cache_meta` row (without the id). -/
structure MetaRow where
  tmdb_id : Int
  country : String
  cached_at : Int
deriving DecidableEq, Repr

/-- The release domain of the store: data rows plus freshness meta rows.
The migration `m20220101_000001_create_table.rs` additionally places the
unique index `idx_release_cache_unique` on
(tmdb_id, country, release_date, release_type); stores the program can
produce satisfy the predicate `releaseIndexOk` below, which the
structure does not bundle so that the write operations stay total (an
insert violating the index fails at the SQL layer). -/
structure ReleaseStore where
  rows : List ReleaseRow
  metas : List MetaRow
deriving DecidableEq, Repr

/-- The unique index `idx_release_cache_unique` on `release_cache`
(tmdb_id, country, release_date, release_type): no two distinct rows
share that column tuple. -/
def releaseIndexOk (s : ReleaseStore) : Prop :=
  s.rows.Pairwise (fun r1 r2 =>
    ¬(r1.tmdb_id = r2.tmdb_id ∧ r1.country = r2.country
      ∧ r1.release_date = r2.release_date
      ∧ r1.release_type = r2.release_type))

/-- The meta upsert: `insert .. on_conflict (tmdb_id, country) update cached_at`. -/
def upsertMeta (tmdb_id : Int) (country : String) (now : Int)
    (metas : List MetaRow) : List MetaRow :=
  if metas.any (fun m => m.tmdb_id == tmdb_id && m.country == country) then
    metas.map (fun m =>
      if m.tmdb_id == tmdb_id && m.country == country then
        { m with cached_at := now }
      else m)
  else metas ++ [{ tmdb_id := tmdb_id, country := country, cached_at := now }]

/-- The insert loop body of `put_releases`: a `ReleaseDate` to a stored row. -/
def releaseToRow (tmdb_id : Int) (country : String) (now : Int)
    (rel : ReleaseDate) : ReleaseRow :=
  { tmdb_id := tmdb_id, country := country,
    release_date := rel.date.render,
    release_type := rel.release_type.as_tmdb_code,
    note := rel.note, cached_at := now }

/-- `CacheManager::put_releases`: inside one transaction, delete every row
for (tmdb_id, country), insert the theatrical then streaming entries, and
upsert the meta timestamp.  `now` is the transaction's `now_sec()`. -/
def put_releases (tmdb_id : Int) (country : String)
    (theatrical streaming : List ReleaseDate) (now : Int)
    (s : ReleaseStore) : ReleaseStore :=
  { rows :=
      s.rows.filter (fun r => !(r.tmdb_id == tmdb_id && r.country == country))
        ++ (theatrical ++ streaming).map (releaseToRow tmdb_id country now),
    metas := upsertMeta tmdb_id country now s.metas }

/-- `CacheManager::put_releases_multi_country`: delete the rows of every
country in the input for this tmdb_id, then per country insert its
entries and upsert its meta timestamp. -/
def put_releases_multi_country (tmdb_id : Int)
    (countries : List CountryReleases) (now : Int)
    (s : ReleaseStore) : ReleaseStore :=
  let country_codes := countries.map (fun c => c.country)
  let kept := s.rows.filter
    (fun r => !(r.tmdb_id == tmdb_id && country_codes.contains r.country))
  countries.foldl
    (fun acc cd =>
      { rows := acc.rows ++
          (cd.theatrical ++ cd.streaming).map (releaseToRow tmdb_id cd.country now),
        metas := upsertMeta tmdb_id cd.country now acc.metas })
    { rows := kept, metas := s.metas }

/-- The SQL predicate `Note.contains("Mock")` on a release row: a NULL
note does not match. -/
def rowNoteHasMock (r : ReleaseRow) : Bool :=
  match r.note with
  | some n => strContains n "Mock"
  | none => false

/-- `CacheManager::clear_mock_release_dates`: delete every release row
whose note contains the substring `"Mock"`. -/
def clear_mock_release_dates (s : ReleaseStore) : ReleaseStore :=
  { s with rows := s.rows.filter (fun r => ! rowNoteHasMock r) }

/-- `is_release_fresh`: `now - cached_at ≤ ttl` (i64 `saturating_sub`
modelled as plain subtraction on unbounded Int). -/
def isReleaseFresh (ttl now cached_at : Int) : Bool :=
  now - cached_at ≤ ttl

/-- The per-row conversion inside `get_releases`: parse the stored date
string and type code, skipping the row (`continue`) when either fails. -/
def rowToRelease (row : ReleaseRow) : Option ReleaseDate :=
  match parseDate row.release_date with
  | none => none
  | some date =>
    match ReleaseType.from_tmdb_code row.release_type with
    | none => none
    | some kind => some { date := date, release_type := kind, note := row.note }

/-- Build the (theatrical, streaming) lists of one fresh pair from its
stored rows: convert (skipping corrupt rows), split by kind in row order,
sort each by date. -/
def rowsToLists (rows : List ReleaseRow) : List ReleaseDate × List ReleaseDate :=
  let parsed := rows.filterMap rowToRelease
  (sortByDate (parsed.filter (fun r => r.release_type == ReleaseType.Theatrical)),
   sortByDate (parsed.filter (fun r => r.release_type == ReleaseType.Digital)))

/-- `CacheManager::get_releases`: keep the requested (tmdb_id, country)
pairs whose meta row is fresh, and return each with its stored lists —
empty lists when a fresh pair has no rows.  The result `HashMap` is an
association list here; meta keys are distinct (unique index), so each key
appears once. -/
def get_releases (ttl now : Int) (s : ReleaseStore)
    (requests : List (Int × String)) :
    List ((Int × String) × (List ReleaseDate × List ReleaseDate)) :=
  if requests.isEmpty then []
  else
    let tmdb_ids := requests.map (fun p => p.1)
    let fresh_requests :=
      (s.metas.filter (fun m => tmdb_ids.contains m.tmdb_id)).filterMap
        (fun m =>
          if isReleaseFresh ttl now m.cached_at
              && requests.contains (m.tmdb_id, m.country)
          then some (m.tmdb_id, m.country) else none)
    if fresh_requests.isEmpty then []
    else
      let fresh_tmdb_ids := fresh_requests.map (fun p => p.1)
      let rows := s.rows.filter (fun r => fresh_tmdb_ids.contains r.tmdb_id)
      fresh_requests.map (fun key =>
        (key, rowsToLists (rows.filter (fun r => (r.tmdb_id, r.country) == key))))

/-! ## Provider cache (`cache.rs`, provider domain; `models.rs`) -/

/-- `models.rs` `ProviderType`. -/
inductive ProviderType where
  | Stream
  | Rent
  | Buy
deriving DecidableEq, Repr

/-- `ProviderType::as_code`. -/
def ProviderType.as_code : ProviderType → Int
  | .Stream => 1
  | .Rent => 2
  | .Buy => 3

/-- `models.rs` `WatchProvider`. -/
structure WatchProvider where
  provider_id : Int
  provider_name : String
  logo_path : String
  link : Option String
  provider_type : ProviderType
deriving DecidableEq, Repr

/-- `entities::provider_cache::Model` (without the autoincrement id). -/
structure ProviderRow where
  tmdb_id : Int
  country : String
  provider_id : Int
  provider_name : String
  logo_path : String
  link : Option String
  provider_type : Int
  cached_at : Int
deriving DecidableEq, Repr

/-- The provider domain of the store: data rows plus freshness meta rows. -/
structure ProviderStore where
  rows : List ProviderRow
  metas : List MetaRow
deriving DecidableEq, Repr

/-- The per-provider upsert of `put_providers`:
`on_conflict (tmdb_id, country, provider_id, provider_type)
update (provider_name, logo_path, link, cached_at)`. -/
def upsertProviderRow (tmdb_id : Int) (country : String) (now : Int)
    (p : WatchProvider) (rows : List ProviderRow) : List ProviderRow :=
  let hit := fun (r : ProviderRow) =>
    r.tmdb_id == tmdb_id && r.country == country &&
      r.provider_id == p.provider_id && r.provider_type == p.provider_type.as_code
  if rows.any hit then
    rows.map (fun r =>
      if hit r then
        { r with provider_name := p.provider_name, logo_path := p.logo_path,
                 link := p.link, cached_at := now }
      else r)
  else
    rows ++ [{ tmdb_id := tmdb_id, country := country,
               provider_id := p.provider_id, provider_name := p.provider_name,
               logo_path := p.logo_path, link := p.link,
               provider_type := p.provider_type.as_code, cached_at := now }]

/-- `CacheManager::put_providers`: early-return on an empty provider list
touching nothing at all (no meta write); otherwise upsert each provider
row and the meta timestamp in one transaction. -/
def put_providers (tmdb_id : Int) (country : String)
    (providers : List WatchProvider) (now : Int)
    (s : ProviderStore) : ProviderStore :=
  if providers.isEmpty then s
  else
    { rows := providers.foldl
        (fun acc p => upsertProviderRow tmdb_id country now p acc) s.rows,
      metas := upsertMeta tmdb_id country now s.metas }

/-! ## Pipeline (`processor.rs`) -/

/-- `HashMap` read: first value bound to an equal key (keys are distinct
in every map the pipeline builds, so the choice is unambiguous). -/
def assocLookup {κ β : Type} [BEq κ] (l : List (κ × β)) (k : κ) : Option β :=
  (l.find? (fun e => e.1 == k)).map (fun e => e.2)

/-- `processor.rs` `get_release_data`: cached map first (keyed by pair),
then the freshly fetched map (keyed by tmdb_id, then `find` the country),
else empty lists. -/
def get_release_data
    (cached_releases : List ((Int × String) × (List ReleaseDate × List ReleaseDate)))
    (new_releases : List (Int × List CountryReleases))
    (tmdb_id : Int) (country : String) : List ReleaseDate × List ReleaseDate :=
  match assocLookup cached_releases (tmdb_id, country) with
  | some v => v
  | none =>
    match assocLookup new_releases tmdb_id with
    | some countries =>
      match countries.find? (fun c => c.country == country) with
      | some cd => (cd.theatrical, cd.streaming)
      | none => ([], [])
    | none => ([], [])

/-- Rust `Iterator::partition(pred)`: the entries satisfying the
predicate in order, paired with the entries failing it in order. -/
def rustPartition {α : Type} (p : α → Bool) (l : List α) : List α × List α :=
  (l.filter p, l.filter (fun a => !p a))

/-- The partition predicate of the fallback resolver: an entry is
"upcoming" when its note does not mention `"Already available"`. -/
def isUpcoming (r : ReleaseDate) : Bool :=
  match r.note with
  | some n => !(strContains n "Already available")
  | none => true

/-- Overwrite an entry's note with a country code (`rel.note = Some(code)`). -/
def tagNote (code : String) (r : ReleaseDate) : ReleaseDate :=
  { r with note := some code }

/-- `processor.rs` `get_releases_with_fallback_bulk`, the categorization
state machine over already-materialized per-country data.  Returns
(theatrical, streaming, category).  In the first (requested-country)
`LocalAlreadyAvailable` branch the country tag is applied *before* the
upcoming entries are appended, exactly as in the source, so those keep
their provider-supplied notes; the AU and US tiers tag all four lists
before combining. -/
def get_releases_with_fallback_bulk
    (cached_releases : List ((Int × String) × (List ReleaseDate × List ReleaseDate)))
    (new_releases : List (Int × List CountryReleases))
    (tmdb_id : Int) (country : String) :
    List ReleaseDate × List ReleaseDate × ReleaseCategory :=
  let local_data := get_release_data cached_releases new_releases tmdb_id country
  let pt := rustPartition isUpcoming local_data.1
  let ps := rustPartition isUpcoming local_data.2
  let local_upcoming_theatrical := pt.1
  let local_already_available_theatrical := pt.2
  let local_upcoming_streaming := ps.1
  let local_already_available_streaming := ps.2
  if !local_already_available_theatrical.isEmpty
      || !local_already_available_streaming.isEmpty then
    (local_already_available_theatrical.map (tagNote country)
       ++ local_upcoming_theatrical,
     local_already_available_streaming.map (tagNote country)
       ++ local_upcoming_streaming,
     .LocalAlreadyAvailable)
  else if !local_upcoming_theatrical.isEmpty
      || !local_upcoming_streaming.isEmpty then
    (local_upcoming_theatrical.map (tagNote country),
     local_upcoming_streaming.map (tagNote country),
     .LocalUpcoming)
  else if country == "US" then ([], [], .NoReleases)
  else
    let nzResult :=
      if country == "NZ" then
        let au_data := get_release_data cached_releases new_releases tmdb_id "AU"
        if !au_data.1.isEmpty || !au_data.2.isEmpty then
          let aut := rustPartition isUpcoming au_data.1
          let aus := rustPartition isUpcoming au_data.2
          let au_up_t := aut.1.map (tagNote "AU")
          let au_av_t := aut.2.map (tagNote "AU")
          let au_up_s := aus.1.map (tagNote "AU")
          let au_av_s := aus.2.map (tagNote "AU")
          if !au_av_t.isEmpty || !au_av_s.isEmpty then
            some (au_av_t ++ au_up_t, au_av_s ++ au_up_s,
                  ReleaseCategory.LocalAlreadyAvailable)
          else if !au_up_t.isEmpty || !au_up_s.isEmpty then
            some (au_up_t, au_up_s, ReleaseCategory.LocalUpcoming)
          else none
        else none
      else none
    match nzResult with
    | some r => r
    | none =>
      let us_data := get_release_data cached_releases new_releases tmdb_id "US"
      if !us_data.1.isEmpty || !us_data.2.isEmpty then
        let ust := rustPartition isUpcoming us_data.1
        let uss := rustPartition isUpcoming us_data.2
        let us_up_t := ust.1.map (tagNote "US")
        let us_av_t := ust.2.map (tagNote "US")
        let us_up_s := uss.1.map (tagNote "US")
        let us_av_s := uss.2.map (tagNote "US")
        if !us_av_t.isEmpty || !us_av_s.isEmpty then
          (us_av_t ++ us_up_t, us_av_s ++ us_up_s, .LocalAlreadyAvailable)
        else if !us_up_t.isEmpty || !us_up_s.isEmpty then
          (us_up_t, us_up_s, .LocalUpcoming)
        else ([], [], .NoReleases)
      else ([], [], .NoReleases)

/-- `models.rs` `FilmWithReleases`. -/
structure FilmWithReleases where
  title : String
  year : Option Int
  tmdb_id : Int
  letterboxd_slug : String
  poster_path : Option String
  theatrical : List ReleaseDate
  streaming : List ReleaseDate
  category : ReleaseCategory
  streaming_providers : List WatchProvider
deriving DecidableEq, Repr

/-- The sort key of the final `results.sort_by_key`: the date of the first
theatrical entry, else of the first streaming entry, else `None`. -/
def filmSortKey (f : FilmWithReleases) : Option Date :=
  (f.theatrical.head?.or f.streaming.head?).map (fun r => r.date)

/-- Rust's derived order on `Option<Date>`: `None` sorts before `Some`. -/
def optDateLE : Option Date → Option Date → Bool
  | none, _ => true
  | some _, none => false
  | some a, some b => dateLE a b

/-- The final line of `process`:
`results.sort_by_key(|f| f.theatrical.first().or_else(streaming.first()).map(date))`,
a stable sort on the `Option<Date>` key. -/
def sortResults (results : List FilmWithReleases) : List FilmWithReleases :=
  List.mergeSort results (fun a b => optDateLE (filmSortKey a) (filmSortKey b))

/-- Phase 7 of `process`: keep only the countries of the upstream response
that were requested for this tmdb_id. -/
def filterFoundCountries (all_countries : List CountryReleases)
    (countries : List String) : List CountryReleases :=
  all_countries.filter (fun c => countries.contains c.country)

/-- Phase 7 of `process`: append an empty `CountryReleases` for every
requested country code absent from the filtered response, then this list
is handed to `put_releases_multi_country`. -/
def fillMissingCountries (found_countries : List CountryReleases)
    (requested_countries : List String) : List CountryReleases :=
  let found_country_codes := found_countries.map (fun c => c.country)
  found_countries ++
    (requested_countries.filter (fun cc => !found_country_codes.contains cc)).map
      (fun cc => { country := cc, theatrical := [], streaming := [] })

/-! ## Supporting lemmas -/

theorem dateLE_refl (a : Date) : dateLE a a = true := by
  simp [dateLE]

theorem dateLE_total (a b : Date) : (dateLE a b || dateLE b a) = true := by
  simp only [dateLE, Bool.or_eq_true, Bool.and_eq_true, decide_eq_true_eq,
    beq_iff_eq]
  omega

theorem dateLE_trans (a b c : Date) (h1 : dateLE a b = true)
    (h2 : dateLE b c = true) : dateLE a c = true := by
  simp only [dateLE, Bool.or_eq_true, Bool.and_eq_true, decide_eq_true_eq,
    beq_iff_eq] at h1 h2 ⊢
  omega

/-- Normal form of `upsertMeta` when the key is already present. -/
theorem upsertMeta_pos (t : Int) (c : String) (n : Int) (ms : List MetaRow)
    (h : ms.any (fun m => m.tmdb_id == t && m.country == c) = true) :
    upsertMeta t c n ms = ms.map (fun m =>
      if m.tmdb_id == t && m.country == c then { m with cached_at := n }
      else m) := by
  unfold upsertMeta
  rw [if_pos h]

/-- Normal form of `upsertMeta` when the key is absent. -/
theorem upsertMeta_neg (t : Int) (c : String) (n : Int) (ms : List MetaRow)
    (h : ¬ ms.any (fun m => m.tmdb_id == t && m.country == c) = true) :
    upsertMeta t c n ms
      = ms ++ [{ tmdb_id := t, country := c, cached_at := n }] := by
  unfold upsertMeta
  rw [if_neg h]

theorem upsertMeta_key_present (t : Int) (c : String) (n : Int)
    (ms : List MetaRow) :
    (upsertMeta t c n ms).any (fun m =>
      m.tmdb_id == t && m.country == c && m.cached_at == n) = true := by
  by_cases h : ms.any (fun m => m.tmdb_id == t && m.country == c) = true
  · rw [upsertMeta_pos t c n ms h, List.any_eq_true]
    rw [List.any_eq_true] at h
    obtain ⟨m, hm, hpm⟩ := h
    exact ⟨_, List.mem_map_of_mem _ hm, by simp only [hpm, if_true]; simp_all⟩
  · rw [upsertMeta_neg t c n ms h]
    simp

theorem upsertMeta_any_key (t : Int) (c : String) (n : Int)
    (ms : List MetaRow) :
    (upsertMeta t c n ms).any (fun m => m.tmdb_id == t && m.country == c)
      = true := by
  have h := upsertMeta_key_present t c n ms
  rw [List.any_eq_true] at h ⊢
  obtain ⟨m, hm, hp⟩ := h
  refine ⟨m, hm, ?_⟩
  simp only [Bool.and_eq_true] at hp ⊢
  exact ⟨hp.1.1, hp.1.2⟩

theorem upsertMeta_upsertMeta (t : Int) (c : String) (n1 n2 : Int)
    (ms : List MetaRow) :
    upsertMeta t c n2 (upsertMeta t c n1 ms) = upsertMeta t c n2 ms := by
  have hpres := upsertMeta_any_key t c n1 ms
  by_cases h : ms.any (fun m => m.tmdb_id == t && m.country == c) = true
  · rw [upsertMeta_pos t c n1 ms h,
      upsertMeta_pos t c n2 _ (by rwa [upsertMeta_pos t c n1 ms h] at hpres),
      upsertMeta_pos t c n2 ms h, List.map_map]
    apply List.map_congr_left
    intro m _
    by_cases hm : (m.tmdb_id == t && m.country == c) = true
    · simp [Function.comp, hm]
    · simp [Function.comp, hm]
  · rw [upsertMeta_neg t c n1 ms h,
      upsertMeta_pos t c n2 _ (by rwa [upsertMeta_neg t c n1 ms h] at hpres),
      upsertMeta_neg t c n2 ms h, List.map_append]
    have hmap : ms.map (fun m =>
        if m.tmdb_id == t && m.country == c then { m with cached_at := n2 }
        else m) = ms.map id := by
      apply List.map_congr_left
      intro m hm
      have hfalse : (m.tmdb_id == t && m.country == c) = false := by
        rw [List.any_eq_true] at h
        push_neg at h
        have := h m (by simpa using hm)
        simpa using this
      simp [hfalse]
    rw [hmap, List.map_id]
    simp

theorem optDateLE_total (a b : Option Date) :
    (optDateLE a b || optDateLE b a) = true := by
  match a, b with
  | none, _ => simp [optDateLE]
  | some _, none => simp [optDateLE]
  | some x, some y => simpa [optDateLE] using dateLE_total x y

theorem optDateLE_trans (a b c : Option Date) (h1 : optDateLE a b = true)
    (h2 : optDateLE b c = true) : optDateLE a c = true := by
  match a, b, c with
  | none, _, _ => simp [optDateLE]
  | some x, none, _ => simp [optDateLE] at h1
  | some x, some y, none => simp [optDateLE] at h2
  | some x, some y, some z =>
    simp only [optDateLE] at h1 h2 ⊢
    exact dateLE_trans x y z h1 h2

/-! ## Claims C7 and C9 -/

/-- **C7** (confirmed).  Calling `put_releases` twice in succession with
the same (tmdb_id, country, theatrical, streaming) input leaves the store
exactly as a single call would have: the delete-then-insert replacement
removes precisely the rows the first call inserted before re-inserting
them, and the meta upsert is idempotent.  (Stated for arbitrary
timestamps of the two calls; taking `n1 = n2` is literal repetition.) -/
theorem put_releases_idempotent (t : Int) (c : String)
    (th st : List ReleaseDate) (n1 n2 : Int) (s : ReleaseStore) :
    put_releases t c th st n2 (put_releases t c th st n1 s)
      = put_releases t c th st n2 s := by
  unfold put_releases
  simp only [ReleaseStore.mk.injEq]
  constructor
  · rw [List.filter_append]
    have h1 : ((s.rows.filter (fun r =>
        !(r.tmdb_id == t && r.country == c))).filter (fun r =>
        !(r.tmdb_id == t && r.country == c)))
        = s.rows.filter (fun r => !(r.tmdb_id == t && r.country == c)) := by
      rw [List.filter_filter]
      apply List.filter_congr
      intro a _
      exact Bool.and_self _
    have h2 : (List.map (releaseToRow t c n1) (th ++ st)).filter
        (fun r => !(r.tmdb_id == t && r.country == c)) = [] := by
      rw [List.filter_eq_nil_iff]
      intro r hr
      rw [List.mem_map] at hr
      obtain ⟨rel, _, rfl⟩ := hr
      simp [releaseToRow]
    rw [h1, h2, List.append_nil]
  · exact upsertMeta_upsertMeta t c n1 n2 s.metas

/-- **C9** (confirmed).  `put_providers` with an empty provider list
returns before touching the store: no provider rows and, in particular,
no meta freshness row are written, so the (tmdb_id, country) pair stays a
cache miss.  By contrast `put_releases` with empty lists still upserts a
meta row stamped with the call's `now`, recording a fresh
"confirmed empty" result. -/
theorem put_providers_empty_is_noop (t : Int) (c : String) (n : Int)
    (ps : ProviderStore) (rs : ReleaseStore) :
    put_providers t c [] n ps = ps ∧
      ((put_releases t c [] [] n rs).metas.any (fun m =>
        m.tmdb_id == t && m.country == c && m.cached_at == n)) = true := by
  constructor
  · unfold put_providers
    simp
  · unfold put_releases
    exact upsertMeta_key_present t c n rs.metas

/-! ## Claim C3 -/

theorem dateLE_antisymm (a b : Date) (h1 : dateLE a b = true)
    (h2 : dateLE b a = true) : a = b := by
  obtain ⟨ay, am, ad⟩ := a
  obtain ⟨b1, b2, b3⟩ := b
  simp only [dateLE, Bool.or_eq_true, Bool.and_eq_true, decide_eq_true_eq,
    beq_iff_eq] at h1 h2
  simp only [Date.mk.injEq]
  omega

theorem optDateLE_antisymm (a b : Option Date) (h1 : optDateLE a b = true)
    (h2 : optDateLE b a = true) : a = b := by
  match a, b with
  | none, none => rfl
  | none, some x => simp [optDateLE] at h2
  | some x, none => simp [optDateLE] at h1
  | some x, some y =>
    simp only [optDateLE] at h1 h2
    exact congrArg some (dateLE_antisymm x y h1 h2)

/-- **C3** (corrected), counterexample.  Three films: "Nodate" with no
entries at all, then "Zed" and "Alpha" both with the same 2026-05-01
theatrical date, assembled in that order.  `process` sorts with
`sort_by_key` on an `Option<Date>` key, so the dateless film comes
*first* (Rust's `None` sorts before every `Some`) and the two tied films
keep their assembly order "Zed", "Alpha".  The claim instead requires
absent-date films last and ties broken by title, i.e. the output
"Alpha", "Zed", "Nodate" — both the placement of the dateless film and
the tie order contradict it. -/
theorem sortResults_counterexample_dateless_first :
    (sortResults
      [{ title := "Nodate", year := none, tmdb_id := 1,
         letterboxd_slug := "nodate", poster_path := none, theatrical := [],
         streaming := [], category := .NoReleases, streaming_providers := [] },
       { title := "Zed", year := none, tmdb_id := 2, letterboxd_slug := "zed",
         poster_path := none,
         theatrical := [{ date := { year := 2026, month := 5, day := 1 },
                          release_type := .Theatrical, note := none }],
         streaming := [], category := .LocalUpcoming,
         streaming_providers := [] },
       { title := "Alpha", year := none, tmdb_id := 3,
         letterboxd_slug := "alpha", poster_path := none,
         theatrical := [{ date := { year := 2026, month := 5, day := 1 },
                          release_type := .Theatrical, note := none }],
         streaming := [], category := .LocalUpcoming,
         streaming_providers := [] }]).map (fun f => f.title)
      = ["Nodate", "Zed", "Alpha"] := by
  unfold sortResults
  rw [List.mergeSort_of_sorted]
  · rfl
  · simp [List.pairwise_cons, filmSortKey, optDateLE, dateLE]

/-- **C3** (corrected), amended claim.  The returned list is a
permutation of the assembled per-film results, sorted ascending by the
key "date of the first theatrical entry, else of the first streaming
entry", with films lacking any dated entry placed first (`None` sorts
before `Some`) and no title tie-break; the sort is stable, so any two
films already in (non-strict) key order — in particular any tied films —
keep their relative order from the assembly phase; and when all films
carry pairwise-distinct keys the final list is the same for every
assembly order, so task completion order can influence the result only
through the relative order of films with equal keys. -/
theorem sortResults_sorted_perm (films : List FilmWithReleases) :
    List.Pairwise
      (fun a b => optDateLE (filmSortKey a) (filmSortKey b) = true)
      (sortResults films)
    ∧ (sortResults films).Perm films
    ∧ (∀ a b : FilmWithReleases,
        optDateLE (filmSortKey a) (filmSortKey b) = true →
        [a, b].Sublist films → [a, b].Sublist (sortResults films))
    ∧ (∀ films2 : List FilmWithReleases, films.Perm films2 →
        (∀ a ∈ films, ∀ b ∈ films, filmSortKey a = filmSortKey b → a = b) →
        sortResults films = sortResults films2) := by
  refine ⟨?_, ?_, ?_, ?_⟩
  · exact @List.sorted_mergeSort FilmWithReleases
      (fun a b => optDateLE (filmSortKey a) (filmSortKey b))
      (fun a b c h1 h2 => optDateLE_trans _ _ _ h1 h2)
      (fun a b => optDateLE_total _ _) films
  · exact List.mergeSort_perm films _
  · intro a b hab hsub
    unfold sortResults
    exact List.pair_sublist_mergeSort
      (fun a b c h1 h2 => optDateLE_trans _ _ _ h1 h2)
      (fun a b => optDateLE_total _ _) hab hsub
  · intro films2 hperm hinj
    have hsorted1 := @List.sorted_mergeSort FilmWithReleases
      (fun a b => optDateLE (filmSortKey a) (filmSortKey b))
      (fun a b c h1 h2 => optDateLE_trans _ _ _ h1 h2)
      (fun a b => optDateLE_total _ _) films
    have hsorted2 := @List.sorted_mergeSort FilmWithReleases
      (fun a b => optDateLE (filmSortKey a) (filmSortKey b))
      (fun a b c h1 h2 => optDateLE_trans _ _ _ h1 h2)
      (fun a b => optDateLE_total _ _) films2
    unfold sortResults
    apply List.Perm.eq_of_sorted
    · intro x y hx hy hxy hyx
      rw [List.mem_mergeSort] at hx hy
      have hy2 : y ∈ films := hperm.mem_iff.mpr hy
      exact hinj x hx y hy2 (optDateLE_antisymm _ _ hxy hyx)
    · exact hsorted1
    · exact hsorted2
    · exact ((List.mergeSort_perm films _).trans hperm).trans
        (List.mergeSort_perm films2 _).symm

/-- **C3** witness: the amended claim's stability part applied at a
concrete tied pair — two films with the same date keep their assembly
order. -/
theorem sortResults_sorted_perm_witness :
    [{ title := "Zed", year := none, tmdb_id := 2, letterboxd_slug := "zed",
       poster_path := none,
       theatrical := [{ date := { year := 2026, month := 5, day := 1 },
                        release_type := .Theatrical, note := none }],
       streaming := [], category := .LocalUpcoming,
       streaming_providers := [] },
     { title := "Alpha", year := none, tmdb_id := 3,
       letterboxd_slug := "alpha", poster_path := none,
       theatrical := [{ date := { year := 2026, month := 5, day := 1 },
                        release_type := .Theatrical, note := none }],
       streaming := [], category := .LocalUpcoming,
       streaming_providers := [] }].Sublist
      (sortResults
        [{ title := "Zed", year := none, tmdb_id := 2,
           letterboxd_slug := "zed", poster_path := none,
           theatrical := [{ date := { year := 2026, month := 5, day := 1 },
                            release_type := .Theatrical, note := none }],
           streaming := [], category := .LocalUpcoming,
           streaming_providers := [] },
         { title := "Alpha", year := none, tmdb_id := 3,
           letterboxd_slug := "alpha", poster_path := none,
           theatrical := [{ date := { year := 2026, month := 5, day := 1 },
                            release_type := .Theatrical, note := none }],
           streaming := [], category := .LocalUpcoming,
           streaming_providers := [] }]) :=
  (sortResults_sorted_perm
      [{ title := "Zed", year := none, tmdb_id := 2, letterboxd_slug := "zed",
         poster_path := none,
         theatrical := [{ date := { year := 2026, month := 5, day := 1 },
                          release_type := .Theatrical, note := none }],
         streaming := [], category := .LocalUpcoming,
         streaming_providers := [] },
       { title := "Alpha", year := none, tmdb_id := 3,
         letterboxd_slug := "alpha", poster_path := none,
         theatrical := [{ date := { year := 2026, month := 5, day := 1 },
                          release_type := .Theatrical, note := none }],
         streaming := [], category := .LocalUpcoming,
         streaming_providers := [] }]).2.2.1
    _ _ (by decide) (List.Sublist.refl _)

/-! ## Claim C6 -/

/-- **C6** (corrected), counterexample.  Requested country "FR" has one
already-available theatrical entry and one upcoming entry whose provider
note is "Limited theatrical".  The resolver returns
`LocalAlreadyAvailable` with the already-available entry tagged "FR",
but the appended upcoming entry keeps its provider note: the code
overwrites notes *before* extending with the upcoming entries, so the
claim's "every entry — both already-available and upcoming — has its note
overwritten with the requested country code" fails. -/
theorem fallback_counterexample_upcoming_note_kept :
    get_releases_with_fallback_bulk
      [((1, "FR"),
        ([{ date := { year := 2025, month := 1, day := 10 },
            release_type := .Theatrical, note := some "Already available" },
          { date := { year := 2026, month := 7, day := 4 },
            release_type := .Theatrical, note := some "Limited theatrical" }],
         []))]
      [] 1 "FR"
      = ([{ date := { year := 2025, month := 1, day := 10 },
            release_type := .Theatrical, note := some "FR" },
          { date := { year := 2026, month := 7, day := 4 },
            release_type := .Theatrical, note := some "Limited theatrical" }],
         [], ReleaseCategory.LocalAlreadyAvailable) := by
  decide

/-- **C6** (corrected), amended claim.  When the requested country's
lists contain at least one already-available entry, the resolver returns
`LocalAlreadyAvailable` with, per kind, the already-available entries
first — their notes overwritten with the requested country code —
followed by the upcoming entries, which keep their original notes. -/
theorem local_already_available_spec
    (cached : List ((Int × String) × (List ReleaseDate × List ReleaseDate)))
    (newR : List (Int × List CountryReleases))
    (tmdb_id : Int) (country : String)
    (lt ls upT avT upS avS : List ReleaseDate)
    (hdata : get_release_data cached newR tmdb_id country = (lt, ls))
    (hpt : rustPartition isUpcoming lt = (upT, avT))
    (hps : rustPartition isUpcoming ls = (upS, avS))
    (hne : avT ≠ [] ∨ avS ≠ []) :
    get_releases_with_fallback_bulk cached newR tmdb_id country =
      (avT.map (tagNote country) ++ upT,
       avS.map (tagNote country) ++ upS,
       ReleaseCategory.LocalAlreadyAvailable) := by
  have hcond : (!avT.isEmpty || !avS.isEmpty) = true := by
    rcases hne with h | h
    · simp [List.isEmpty_iff, h]
    · simp [List.isEmpty_iff, h]
  unfold get_releases_with_fallback_bulk
  rw [hdata]
  simp only [hpt, hps, hcond, if_true]

/-- **C6** witness: the amended claim applied at the counterexample's
input. -/
theorem local_already_available_spec_witness :
    get_releases_with_fallback_bulk
      [((2, "DE"),
        ([{ date := { year := 2025, month := 2, day := 2 },
            release_type := .Theatrical, note := some "Already available" }],
         []))]
      [] 2 "DE"
      = ([{ date := { year := 2025, month := 2, day := 2 },
            release_type := .Theatrical, note := some "DE" }],
         [], ReleaseCategory.LocalAlreadyAvailable) :=
  local_already_available_spec _ _ 2 "DE"
    [{ date := { year := 2025, month := 2, day := 2 },
       release_type := .Theatrical, note := some "Already available" }] []
    []
    [{ date := { year := 2025, month := 2, day := 2 },
       release_type := .Theatrical, note := some "Already available" }]
    [] []
    (by decide) (by decide) (by decide) (Or.inl (by decide))

/-! ## Claim C2 -/

/-- If both the satisfying and the failing entries of a filter are empty,
the filtered list is empty. -/
theorem eq_nil_of_filters_nil {α : Type} (p : α → Bool) (l : List α)
    (h1 : l.filter p = []) (h2 : l.filter (fun a => !p a) = []) : l = [] := by
  rcases l with _ | ⟨a, t⟩
  · rfl
  · exfalso
    by_cases hp : p a = true
    · rw [List.filter_cons_of_pos hp] at h1
      exact List.cons_ne_nil _ _ h1
    · rw [List.filter_cons_of_pos (by simp [hp])] at h2
      exact List.cons_ne_nil _ _ h2

/-- Every element of a country-tagged list carries that country note. -/
theorem note_of_mem_tagged {l : List ReleaseDate} {code : String}
    {e : ReleaseDate} (he : e ∈ l.map (tagNote code)) :
    e.note = some code := by
  rw [List.mem_map] at he
  obtain ⟨x, _, rfl⟩ := he
  rfl

/-- **C2** (corrected), counterexample.  Requested country "NZ" with
empty NZ lists, a non-empty AU release set and a non-empty US release
set: steps 1–3 find nothing for the requested country and the US set is
non-empty, yet the resolver returns `LocalUpcoming` tagged "AU" — the AU
tier takes precedence for NZ — where the claim requires every output
note to be "US". -/
theorem fallback_counterexample_nz_tags_au :
    get_releases_with_fallback_bulk
      [((1, "NZ"), ([], [])),
       ((1, "AU"),
        ([{ date := { year := 2026, month := 8, day := 1 },
            release_type := .Theatrical, note := none }], [])),
       ((1, "US"),
        ([{ date := { year := 2026, month := 9, day := 1 },
            release_type := .Theatrical, note := none }], []))]
      [] 1 "NZ"
      = ([{ date := { year := 2026, month := 8, day := 1 },
            release_type := .Theatrical, note := some "AU" }],
         [], ReleaseCategory.LocalUpcoming) := by
  decide

/-- **C2** (corrected), amended claim.  For every film whose
requested-country release lists are empty, *provided the requested
country is not "NZ"* (whose AU tier takes precedence over US): if the US
release set is non-empty the resolver returns `LocalAlreadyAvailable` or
`LocalUpcoming` with every output entry's note set to "US", and if the
US set is also empty it returns `NoReleases` with empty lists — so
`NoReleases` arises exactly when every consulted fallback tier yields
nothing. -/
theorem fallback_us_tier_spec
    (cached : List ((Int × String) × (List ReleaseDate × List ReleaseDate)))
    (newR : List (Int × List CountryReleases))
    (tmdb_id : Int) (country : String) (usT usS : List ReleaseDate)
    (hnz : country ≠ "NZ")
    (hlocal : get_release_data cached newR tmdb_id country = ([], []))
    (hus : get_release_data cached newR tmdb_id "US" = (usT, usS)) :
    (¬(usT = [] ∧ usS = []) →
      ((get_releases_with_fallback_bulk cached newR tmdb_id country).2.2
          = ReleaseCategory.LocalAlreadyAvailable ∨
       (get_releases_with_fallback_bulk cached newR tmdb_id country).2.2
          = ReleaseCategory.LocalUpcoming) ∧
      ∀ e ∈ (get_releases_with_fallback_bulk cached newR tmdb_id country).1
          ++ (get_releases_with_fallback_bulk cached newR tmdb_id country).2.1,
        e.note = some "US")
    ∧ ((usT = [] ∧ usS = []) →
      get_releases_with_fallback_bulk cached newR tmdb_id country
        = ([], [], ReleaseCategory.NoReleases)) := by
  by_cases hcus : country = "US"
  · subst hcus
    have hempty : (usT, usS) = (([] : List ReleaseDate), ([] : List ReleaseDate)) := by
      rw [← hus, hlocal]
    rw [Prod.mk.injEq] at hempty
    refine ⟨fun hne => absurd ⟨hempty.1, hempty.2⟩ hne, fun _ => ?_⟩
    unfold get_releases_with_fallback_bulk
    rw [hlocal]
    simp [rustPartition]
  · have hbeq_us : (country == "US") = false := by simp [hcus]
    have hbeq_nz : (country == "NZ") = false := by simp [hnz]
    constructor
    · intro hne
      rw [not_and_or] at hne
      by_cases hav : (¬ usT.filter (fun a => !isUpcoming a) = []
          ∨ ¬ usS.filter (fun a => !isUpcoming a) = [])
      · have hval : get_releases_with_fallback_bulk cached newR tmdb_id country
            = ((usT.filter (fun a => !isUpcoming a)).map (tagNote "US")
                 ++ (usT.filter isUpcoming).map (tagNote "US"),
               (usS.filter (fun a => !isUpcoming a)).map (tagNote "US")
                 ++ (usS.filter isUpcoming).map (tagNote "US"),
               ReleaseCategory.LocalAlreadyAvailable) := by
          unfold get_releases_with_fallback_bulk
          rw [hlocal, hus]
          rcases hne with h | h <;> rcases hav with h2 | h2 <;>
            simp [rustPartition, hbeq_us, hbeq_nz, h, h2]
        rw [hval]
        refine ⟨Or.inl rfl, ?_⟩
        intro e he
        simp only [List.mem_append] at he
        rcases he with (h | h) | (h | h) <;> exact note_of_mem_tagged h
      · rw [not_or, not_not, not_not] at hav
        by_cases hup : (¬ usT.filter isUpcoming = []
            ∨ ¬ usS.filter isUpcoming = [])
        · have hval : get_releases_with_fallback_bulk cached newR tmdb_id country
              = ((usT.filter isUpcoming).map (tagNote "US"),
                 (usS.filter isUpcoming).map (tagNote "US"),
                 ReleaseCategory.LocalUpcoming) := by
            unfold get_releases_with_fallback_bulk
            rw [hlocal, hus]
            rcases hne with h | h <;> rcases hup with h2 | h2 <;>
              simp [rustPartition, hbeq_us, hbeq_nz, h, h2, hav.1, hav.2]
          rw [hval]
          refine ⟨Or.inr rfl, ?_⟩
          intro e he
          simp only [List.mem_append] at he
          rcases he with h | h <;> exact note_of_mem_tagged h
        · exfalso
          rw [not_or, not_not, not_not] at hup
          have ht : usT = [] := eq_nil_of_filters_nil _ _ hup.1 hav.1
          have hs : usS = [] := eq_nil_of_filters_nil _ _ hup.2 hav.2
          rcases hne with h | h
          · exact h ht
          · exact h hs
    · intro hempty
      unfold get_releases_with_fallback_bulk
      rw [hlocal, hus]
      simp [rustPartition, hbeq_us, hbeq_nz, hempty.1, hempty.2]

/-- **C2** witness: the amended claim applied at a concrete input —
requested country "FR" empty, US tier holding one upcoming entry. -/
theorem fallback_us_tier_spec_witness :
    ((get_releases_with_fallback_bulk
        [((3, "FR"), ([], [])),
         ((3, "US"),
          ([{ date := { year := 2026, month := 9, day := 1 },
              release_type := .Theatrical, note := none }], []))]
        [] 3 "FR").2.2 = ReleaseCategory.LocalAlreadyAvailable ∨
     (get_releases_with_fallback_bulk
        [((3, "FR"), ([], [])),
         ((3, "US"),
          ([{ date := { year := 2026, month := 9, day := 1 },
              release_type := .Theatrical, note := none }], []))]
        [] 3 "FR").2.2 = ReleaseCategory.LocalUpcoming) :=
  ((fallback_us_tier_spec
      [((3, "FR"), ([], [])),
       ((3, "US"),
        ([{ date := { year := 2026, month := 9, day := 1 },
            release_type := .Theatrical, note := none }], []))]
      [] 3 "FR"
      [{ date := { year := 2026, month := 9, day := 1 },
         release_type := .Theatrical, note := none }] []
      (by decide) (by decide) (by decide)).1 (by simp)).1

/-! ## Claim C1 -/

/-- The insert loop of `put_releases_multi_country` only ever appends
rows; when every country in the input carries empty lists it appends
nothing. -/
theorem put_multi_fold_rows_of_empty (tmdb now : Int) :
    ∀ (countries : List CountryReleases) (acc : ReleaseStore),
    (∀ cd ∈ countries, cd.theatrical = [] ∧ cd.streaming = []) →
    (countries.foldl
      (fun acc cd =>
        { rows := acc.rows ++
            (cd.theatrical ++ cd.streaming).map (releaseToRow tmdb cd.country now),
          metas := upsertMeta tmdb cd.country now acc.metas })
      acc).rows = acc.rows
  | [], _, _ => rfl
  | cd :: rest, acc, h => by
    rw [List.foldl_cons]
    rw [put_multi_fold_rows_of_empty tmdb now rest _
      (fun c hc => h c (List.mem_cons_of_mem _ hc))]
    have hcd := h cd (List.mem_cons_self _ _)
    simp [hcd.1, hcd.2]

/-- **C1** (corrected), counterexample.  The release write operations do
no mock filtering themselves: `put_releases` handed a single row whose
note is the mock marker text persists it, so "no release row whose note
carries the mock marker is ever persisted" is false of the write
operation as such. -/
theorem put_releases_counterexample_persists_mock :
    ((put_releases 1 "US"
        [{ date := { year := 2026, month := 3, day := 1 },
           release_type := .Theatrical, note := some "Mock theatrical release" }]
        [] 0 { rows := [], metas := [] }).rows.any rowNoteHasMock) = true := by
  decide

/-- **C1** (corrected), amended claim.  The write operations persist
whatever rows they are given, mock marker included; mock rows
nevertheless never reach the store through the pipeline, because the
fetch path persists only countries drawn from the response's
`all_countries` list, which the mock-mode response leaves empty (its
mock entries live only under `requested_country`) — so the per-film list
handed to `put_releases_multi_country` in mock mode consists solely of
synthesized empty country entries and a mock-free store stays mock-free.
Separately, `clear_mock_release_dates` leaves only mock-free rows. -/
theorem mock_mode_writes_no_mock_rows
    (today : Date) (c0 : String) (reqs : List String) (tmdb now : Int)
    (s : ReleaseStore)
    (h : ∀ r ∈ s.rows, rowNoteHasMock r = false) :
    (∀ r ∈ (put_releases_multi_country tmdb
        (fillMissingCountries
          (filterFoundCountries (mock_release_dates today c0).all_countries reqs)
          reqs)
        now s).rows, rowNoteHasMock r = false)
    ∧ (∀ s2 : ReleaseStore, ∀ r ∈ (clear_mock_release_dates s2).rows,
        rowNoteHasMock r = false) := by
  constructor
  · intro r hr
    have hcs : ∀ cd ∈ (fillMissingCountries
        (filterFoundCountries (mock_release_dates today c0).all_countries reqs)
        reqs), cd.theatrical = [] ∧ cd.streaming = [] := by
      intro cd hcd
      simp only [mock_release_dates, filterFoundCountries, fillMissingCountries,
        List.filter_nil, List.nil_append, List.mem_map] at hcd
      obtain ⟨cc, _, rfl⟩ := hcd
      exact ⟨rfl, rfl⟩
    unfold put_releases_multi_country at hr
    rw [put_multi_fold_rows_of_empty tmdb now _ _ hcs] at hr
    exact h r (List.mem_filter.mp hr).1
  · intro s2 r hr
    unfold clear_mock_release_dates at hr
    have := (List.mem_filter.mp hr).2
    simpa using this

/-- **C1** witness: the amended claim applied at a concrete mock-free
store (one non-mock row for another film), with two requested
countries. -/
theorem mock_mode_writes_no_mock_rows_witness :
    rowNoteHasMock
      { tmdb_id := 9, country := "DE", release_date := "2026-01-01",
        release_type := 3, note := none, cached_at := 5 } = false :=
  (mock_mode_writes_no_mock_rows { year := 2026, month := 1, day := 1 }
      "GB" ["GB", "US"] 7 10
      { rows :=
          [{ tmdb_id := 9, country := "DE", release_date := "2026-01-01",
             release_type := 3, note := none, cached_at := 5 }],
        metas := [] }
      (by decide)).1
    { tmdb_id := 9, country := "DE", release_date := "2026-01-01",
      release_type := 3, note := none, cached_at := 5 }
    (by decide)

/-! ## Supporting lemmas for the upstream-client claims -/

theorem sortByDate_eq_nil_iff (l : List ReleaseDate) :
    sortByDate l = [] ↔ l = [] := by
  unfold sortByDate
  rw [← List.length_eq_zero, List.length_mergeSort, List.length_eq_zero]

theorem mem_sortByDate {r : ReleaseDate} {l : List ReleaseDate} :
    r ∈ sortByDate l ↔ r ∈ l := by
  unfold sortByDate
  exact List.mem_mergeSort

theorem sortByDate_pairwise (l : List ReleaseDate) :
    (sortByDate l).Pairwise (fun a b => dateLE a.date b.date = true) := by
  unfold sortByDate
  exact @List.sorted_mergeSort ReleaseDate (fun a b => dateLE a.date b.date)
    (fun a b c h1 h2 => dateLE_trans _ _ _ h1 h2)
    (fun a b => dateLE_total a.date b.date) l

theorem dedupByKey_sublist (l : List ReleaseDate) :
    (dedupByKey l).Sublist l := by
  induction l using dedupByKey.induct with
  | case1 => simp [dedupByKey]
  | case2 a => simp [dedupByKey]
  | case3 a b rest h ih =>
    rw [dedupByKey, if_pos h]
    exact ih.trans ((List.sublist_cons_self b rest).cons₂ a)
  | case4 a b rest h ih =>
    rw [dedupByKey, if_neg h]
    exact ih.cons₂ a

theorem dedupByKey_cons :
    ∀ (t : List ReleaseDate) (a : ReleaseDate),
    ∃ t', dedupByKey (a :: t) = a :: t'
  | [], _ => ⟨[], by simp [dedupByKey]⟩
  | b :: rest, a => by
    by_cases h : releaseKey a = releaseKey b
    · rw [show dedupByKey (a :: b :: rest) = dedupByKey (a :: rest) by
        rw [dedupByKey, if_pos h]]
      exact dedupByKey_cons rest a
    · rw [show dedupByKey (a :: b :: rest) = a :: dedupByKey (b :: rest) by
        rw [dedupByKey, if_neg h]]
      exact ⟨_, rfl⟩

theorem dedupByKey_chain (l : List ReleaseDate) :
    (dedupByKey l).Chain' (fun a b => releaseKey a ≠ releaseKey b) := by
  induction l using dedupByKey.induct with
  | case1 => simp [dedupByKey]
  | case2 a => simp [dedupByKey]
  | case3 a b rest h ih =>
    rw [dedupByKey, if_pos h]
    exact ih
  | case4 a b rest h ih =>
    rw [dedupByKey, if_neg h]
    obtain ⟨t', ht'⟩ := dedupByKey_cons rest b
    rw [ht']
    rw [ht'] at ih
    exact List.Chain'.cons h ih

/-- Every entry the split puts on a future list is dated today or later. -/
theorem splitReleases_future_today (today : Date) :
    ∀ es : List RawEntry,
      (∀ r ∈ (splitReleases today es).1, dateLE today r.date = true) ∧
      (∀ r ∈ (splitReleases today es).2.1, dateLE today r.date = true)
  | [] => by simp [splitReleases]
  | rd :: rest => by
    have ih := splitReleases_future_today today rest
    rcases hsplit : splitReleases today rest with ⟨tf, sf, tp, sp⟩
    rw [hsplit] at ih
    cases hk : ReleaseType.from_tmdb_code rd.type_ with
    | none => simpa [splitReleases, hsplit, hk] using ih
    | some kind =>
      by_cases hd : dateLE today rd.date = true
      · cases kind with
        | Theatrical =>
          simp only [splitReleases, hsplit, hk, hd, if_true]
          refine ⟨?_, ih.2⟩
          intro r hr
          rcases List.mem_cons.mp hr with rfl | hr
          · exact hd
          · exact ih.1 r hr
        | Digital =>
          simp only [splitReleases, hsplit, hk, hd, if_true]
          refine ⟨ih.1, ?_⟩
          intro r hr
          rcases List.mem_cons.mp hr with rfl | hr
          · exact hd
          · exact ih.2 r hr
      · cases kind with
        | Theatrical => simpa [splitReleases, hsplit, hk, hd] using ih
        | Digital => simpa [splitReleases, hsplit, hk, hd] using ih

/-- `max_by_key(|r| r.date)` returns an element of the list bounding
every element's date from above. -/
theorem maxByDate_spec :
    ∀ (l : List ReleaseDate) (m : ReleaseDate), maxByDate l = some m →
      m ∈ l ∧ ∀ r ∈ l, dateLE r.date m.date = true := by
  have aux : ∀ (l : List ReleaseDate) (a : ReleaseDate),
      (l.foldl (fun acc r => if dateLE acc.date r.date then r else acc) a = a
        ∨ l.foldl (fun acc r => if dateLE acc.date r.date then r else acc) a ∈ l)
      ∧ dateLE a.date
          (l.foldl (fun acc r => if dateLE acc.date r.date then r else acc) a).date
          = true
      ∧ ∀ r ∈ l, dateLE r.date
          (l.foldl (fun acc r => if dateLE acc.date r.date then r else acc) a).date
          = true := by
    intro l
    induction l with
    | nil => exact fun a => ⟨Or.inl rfl, dateLE_refl _, by simp⟩
    | cons b t ih =>
      intro a
      rw [List.foldl_cons]
      by_cases hb : dateLE a.date b.date = true
      · rw [if_pos hb]
        obtain ⟨hmem, hle, hall⟩ := ih b
        refine ⟨?_, dateLE_trans _ _ _ hb hle, ?_⟩
        · rcases hmem with h | h
          · exact Or.inr (by rw [h]; exact List.mem_cons_self b t)
          · exact Or.inr (List.mem_cons_of_mem b h)
        · intro r hr
          rcases List.mem_cons.mp hr with rfl | hr
          · exact hle
          · exact hall r hr
      · rw [if_neg hb]
        obtain ⟨hmem, hle, hall⟩ := ih a
        have hba : dateLE b.date a.date = true := by
          have := dateLE_total a.date b.date
          rcases Bool.or_eq_true_iff.mp this with h | h
          · exact absurd h hb
          · exact h
        refine ⟨?_, hle, ?_⟩
        · rcases hmem with h | h
          · exact Or.inl h
          · exact Or.inr (List.mem_cons_of_mem b h)
        · intro r hr
          rcases List.mem_cons.mp hr with rfl | hr
          · exact dateLE_trans _ _ _ hba hle
          · exact hall r hr
  intro l m hm
  cases l with
  | nil => simp [maxByDate] at hm
  | cons a t =>
    rw [maxByDate, Option.some.injEq] at hm
    obtain ⟨hmem, hle, hall⟩ := aux t a
    subst hm
    constructor
    · rcases hmem with h | h
      · exact (by rw [h]; exact List.mem_cons_self a t)
      · exact List.mem_cons_of_mem a h
    · intro r hr
      rcases List.mem_cons.mp hr with rfl | hr
      · exact hle
      · exact hall r hr

/-- The theatrical list of `processCountry`, written out on the split
components. -/
theorem processCountry_theatrical_eq
    (today : Date) (rc : RawCountry) (tf sf tp sp : List ReleaseDate)
    (hsplit : splitReleases today rc.release_dates = (tf, sf, tp, sp)) :
    (processCountry today rc).theatrical
      = (if (!(sortByDate tp).isEmpty && (dedupByKey (sortByDate tf)).isEmpty) = true
         then
          (match maxByDate (sortByDate tp) with
           | some latest =>
             if dateLE (subYears today 2) latest.date = true then
               dedupByKey (sortByDate tf) ++
                 [{ date := latest.date, release_type := ReleaseType.Theatrical,
                    note := some "Already available" }]
             else dedupByKey (sortByDate tf)
           | none => dedupByKey (sortByDate tf))
         else dedupByKey (sortByDate tf)) := by
  unfold processCountry
  rw [hsplit]

/-- The streaming list of `processCountry`, written out on the split
components. -/
theorem processCountry_streaming_eq
    (today : Date) (rc : RawCountry) (tf sf tp sp : List ReleaseDate)
    (hsplit : splitReleases today rc.release_dates = (tf, sf, tp, sp)) :
    (processCountry today rc).streaming
      = (if (!(sortByDate sp).isEmpty && (dedupByKey (sortByDate sf)).isEmpty) = true
         then
          (match maxByDate (sortByDate sp) with
           | some latest =>
             if dateLE (subYears today 2) latest.date = true then
               dedupByKey (sortByDate sf) ++
                 [{ date := latest.date, release_type := ReleaseType.Digital,
                    note := some "Already available" }]
             else dedupByKey (sortByDate sf)
           | none => dedupByKey (sortByDate sf))
         else dedupByKey (sortByDate sf)) := by
  unfold processCountry
  rw [hsplit]

/-! ## Claim C5 -/

/-- **C5** (corrected), counterexample.  Requested data holds one future
theatrical entry (2026-06-01) *and* one past theatrical entry
(2025-06-01, well within 2 years of today 2026-01-01): past-dated
entries exist and the most recent past date is within the window, yet no
synthetic "Already available" entry is surfaced — the backfill only
happens when the kind's future list is empty, a condition the claim
omits. -/
theorem processCountry_counterexample_no_backfill :
    dateLE (subYears { year := 2026, month := 1, day := 1 } 2)
        { year := 2025, month := 6, day := 1 } = true
    ∧ (processCountry { year := 2026, month := 1, day := 1 }
        { iso_3166_1 := "US",
          release_dates :=
            [{ date := { year := 2026, month := 6, day := 1 }, type_ := 3,
               note := none },
             { date := { year := 2025, month := 6, day := 1 }, type_ := 3,
               note := none }] }).theatrical
      = [{ date := { year := 2026, month := 6, day := 1 },
           release_type := ReleaseType.Theatrical, note := none }] := by
  constructor
  · decide
  · rw [processCountry_theatrical_eq _ _
      [{ date := { year := 2026, month := 6, day := 1 },
         release_type := ReleaseType.Theatrical, note := none }] []
      [{ date := { year := 2025, month := 6, day := 1 },
         release_type := ReleaseType.Theatrical, note := none }] []
      (by decide)]
    simp [sortByDate, dedupByKey]

/-- **C5** (corrected), amended claim.  Per country and kind: the client
backfills the synthetic "Already available" entry only when that kind's
(deduplicated) future list is empty; in that case, if past entries exist
and the single most recent past date is within 2 years of today, the
surfaced list for the kind is exactly that one synthetic entry; if the
most recent past date is older than 2 years the kind's list is empty;
and when future entries exist the list is exactly the deduplicated
future entries, each dated today or later — so no past-dated entry is
ever surfaced except the one synthetic entry. -/
theorem past_backfill_spec
    (today : Date) (rc : RawCountry) (tf sf tp sp : List ReleaseDate)
    (hsplit : splitReleases today rc.release_dates = (tf, sf, tp, sp)) :
    (∀ latest, tp ≠ [] → dedupByKey (sortByDate tf) = [] →
      maxByDate (sortByDate tp) = some latest →
      dateLE (subYears today 2) latest.date = true →
      (processCountry today rc).theatrical
        = [{ date := latest.date, release_type := ReleaseType.Theatrical,
             note := some "Already available" }]
        ∧ ∀ r ∈ tp, dateLE r.date latest.date = true)
    ∧ (∀ latest, dedupByKey (sortByDate tf) = [] →
      maxByDate (sortByDate tp) = some latest →
      dateLE (subYears today 2) latest.date = false →
      (processCountry today rc).theatrical = [])
    ∧ (dedupByKey (sortByDate tf) ≠ [] →
      (processCountry today rc).theatrical = dedupByKey (sortByDate tf)
        ∧ ∀ r ∈ (processCountry today rc).theatrical,
            dateLE today r.date = true)
    ∧ (∀ latest, sp ≠ [] → dedupByKey (sortByDate sf) = [] →
      maxByDate (sortByDate sp) = some latest →
      dateLE (subYears today 2) latest.date = true →
      (processCountry today rc).streaming
        = [{ date := latest.date, release_type := ReleaseType.Digital,
             note := some "Already available" }]
        ∧ ∀ r ∈ sp, dateLE r.date latest.date = true)
    ∧ (∀ latest, dedupByKey (sortByDate sf) = [] →
      maxByDate (sortByDate sp) = some latest →
      dateLE (subYears today 2) latest.date = false →
      (processCountry today rc).streaming = [])
    ∧ (dedupByKey (sortByDate sf) ≠ [] →
      (processCountry today rc).streaming = dedupByKey (sortByDate sf)
        ∧ ∀ r ∈ (processCountry today rc).streaming,
            dateLE today r.date = true) := by
  have hthe := processCountry_theatrical_eq today rc tf sf tp sp hsplit
  have hstr := processCountry_streaming_eq today rc tf sf tp sp hsplit
  have hfutT : ∀ r ∈ dedupByKey (sortByDate tf), dateLE today r.date = true := by
    intro r hr
    have h1 : r ∈ sortByDate tf := (dedupByKey_sublist _).subset hr
    have h2 : r ∈ tf := mem_sortByDate.mp h1
    have := (splitReleases_future_today today rc.release_dates).1
    rw [hsplit] at this
    exact this r h2
  have hfutS : ∀ r ∈ dedupByKey (sortByDate sf), dateLE today r.date = true := by
    intro r hr
    have h1 : r ∈ sortByDate sf := (dedupByKey_sublist _).subset hr
    have h2 : r ∈ sf := mem_sortByDate.mp h1
    have := (splitReleases_future_today today rc.release_dates).2
    rw [hsplit] at this
    exact this r h2
  refine ⟨?_, ?_, ?_, ?_, ?_, ?_⟩
  · intro latest htp hfut hmax h2y
    have hps : sortByDate tp ≠ [] := fun h => htp ((sortByDate_eq_nil_iff tp).mp h)
    rw [hthe, if_pos (by simp [List.isEmpty_iff, hps, hfut]), hmax]
    dsimp only
    rw [if_pos h2y, hfut]
    refine ⟨rfl, ?_⟩
    intro r hr
    exact (maxByDate_spec _ _ hmax).2 r (mem_sortByDate.mpr hr)
  · intro latest hfut hmax h2y
    have hps : sortByDate tp ≠ [] := by
      intro h
      rw [h] at hmax
      simp [maxByDate] at hmax
    rw [hthe, if_pos (by simp [List.isEmpty_iff, hps, hfut]), hmax]
    dsimp only
    rw [if_neg (by simp [h2y]), hfut]
  · intro hfut
    rw [hthe, if_neg (by simp [List.isEmpty_iff, hfut])]
    exact ⟨rfl, fun r hr => hfutT r hr⟩
  · intro latest hsp hfut hmax h2y
    have hps : sortByDate sp ≠ [] := fun h => hsp ((sortByDate_eq_nil_iff sp).mp h)
    rw [hstr, if_pos (by simp [List.isEmpty_iff, hps, hfut]), hmax]
    dsimp only
    rw [if_pos h2y, hfut]
    refine ⟨rfl, ?_⟩
    intro r hr
    exact (maxByDate_spec _ _ hmax).2 r (mem_sortByDate.mpr hr)
  · intro latest hfut hmax h2y
    have hps : sortByDate sp ≠ [] := by
      intro h
      rw [h] at hmax
      simp [maxByDate] at hmax
    rw [hstr, if_pos (by simp [List.isEmpty_iff, hps, hfut]), hmax]
    dsimp only
    rw [if_neg (by simp [h2y]), hfut]
  · intro hfut
    rw [hstr, if_neg (by simp [List.isEmpty_iff, hfut])]
    exact ⟨rfl, fun r hr => hfutS r hr⟩

/-- **C5** witness: the amended claim's backfill branch applied at a
concrete input — one past theatrical entry 2025-06-01, today 2026-01-01,
no future entries. -/
theorem past_backfill_spec_witness :
    (processCountry { year := 2026, month := 1, day := 1 }
        { iso_3166_1 := "FR",
          release_dates :=
            [{ date := { year := 2025, month := 6, day := 1 }, type_ := 3,
               note := none }] }).theatrical
      = [{ date := { year := 2025, month := 6, day := 1 },
           release_type := ReleaseType.Theatrical,
           note := some "Already available" }] :=
  ((past_backfill_spec { year := 2026, month := 1, day := 1 }
      { iso_3166_1 := "FR",
        release_dates :=
          [{ date := { year := 2025, month := 6, day := 1 }, type_ := 3,
             note := none }] }
      []
      []
      [{ date := { year := 2025, month := 6, day := 1 },
         release_type := ReleaseType.Theatrical, note := none }]
      []
      (by decide)).1
    { date := { year := 2025, month := 6, day := 1 },
      release_type := ReleaseType.Theatrical, note := none }
    (by decide)
    (by simp [sortByDate, dedupByKey])
    (by simp [sortByDate, maxByDate])
    (by decide)).1

/-! ## Claim C8 -/

/-- A fetched per-kind list is either the deduplicated sorted future
list or a single synthetic backfill entry. -/
theorem processCountry_theatrical_shape
    (today : Date) (rc : RawCountry) (tf sf tp sp : List ReleaseDate)
    (hsplit : splitReleases today rc.release_dates = (tf, sf, tp, sp)) :
    (processCountry today rc).theatrical = dedupByKey (sortByDate tf)
      ∨ ∃ x, (processCountry today rc).theatrical = [x] := by
  rw [processCountry_theatrical_eq today rc tf sf tp sp hsplit]
  by_cases hc : (!(sortByDate tp).isEmpty && (dedupByKey (sortByDate tf)).isEmpty)
      = true
  · rw [if_pos hc]
    have hfut : dedupByKey (sortByDate tf) = [] := by
      have h2 := hc
      simp only [Bool.and_eq_true, List.isEmpty_iff] at h2
      exact h2.2
    rcases hmax : maxByDate (sortByDate tp) with _ | latest
    · exact Or.inl rfl
    · dsimp only
      by_cases h2y : dateLE (subYears today 2) latest.date = true
      · rw [if_pos h2y, hfut]
        exact Or.inr ⟨_, rfl⟩
      · rw [if_neg h2y]
        exact Or.inl rfl
  · rw [if_neg hc]
    exact Or.inl rfl

/-- Streaming analogue of `processCountry_theatrical_shape`. -/
theorem processCountry_streaming_shape
    (today : Date) (rc : RawCountry) (tf sf tp sp : List ReleaseDate)
    (hsplit : splitReleases today rc.release_dates = (tf, sf, tp, sp)) :
    (processCountry today rc).streaming = dedupByKey (sortByDate sf)
      ∨ ∃ x, (processCountry today rc).streaming = [x] := by
  rw [processCountry_streaming_eq today rc tf sf tp sp hsplit]
  by_cases hc : (!(sortByDate sp).isEmpty && (dedupByKey (sortByDate sf)).isEmpty)
      = true
  · rw [if_pos hc]
    have hfut : dedupByKey (sortByDate sf) = [] := by
      have h2 := hc
      simp only [Bool.and_eq_true, List.isEmpty_iff] at h2
      exact h2.2
    rcases hmax : maxByDate (sortByDate sp) with _ | latest
    · exact Or.inl rfl
    · dsimp only
      by_cases h2y : dateLE (subYears today 2) latest.date = true
      · rw [if_pos h2y, hfut]
        exact Or.inr ⟨_, rfl⟩
      · rw [if_neg h2y]
        exact Or.inl rfl
  · rw [if_neg hc]
    exact Or.inl rfl

/-- Lists of either shape are date-sorted with no adjacent key
duplicates. -/
theorem dedup_sort_or_singleton_good (base l : List ReleaseDate)
    (h : l = dedupByKey (sortByDate base) ∨ ∃ x, l = [x]) :
    l.Pairwise (fun a b => dateLE a.date b.date = true)
    ∧ l.Chain' (fun a b => releaseKey a ≠ releaseKey b) := by
  rcases h with rfl | ⟨x, rfl⟩
  · exact ⟨(sortByDate_pairwise _).sublist (dedupByKey_sublist _),
      dedupByKey_chain _⟩
  · exact ⟨by simp, by simp⟩

/-- **C8** (corrected), counterexample.  Three same-dated future
theatrical entries with notes "A", "B", "A": the stable date sort leaves
them adjacent in payload order, and `dedup_by_key` only removes
*consecutive* duplicates, so the two identical (date, kind, "A") entries
— separated by the "B" entry — both survive, contradicting "any two
entries with identical (date, kind, note) collapse to a single
entry". -/
theorem processCountry_counterexample_nonadjacent_dup :
    (processCountry { year := 2026, month := 1, day := 1 }
        { iso_3166_1 := "US",
          release_dates :=
            [{ date := { year := 2026, month := 5, day := 1 }, type_ := 3,
               note := some "A" },
             { date := { year := 2026, month := 5, day := 1 }, type_ := 3,
               note := some "B" },
             { date := { year := 2026, month := 5, day := 1 }, type_ := 3,
               note := some "A" }] }).theatrical
      = [{ date := { year := 2026, month := 5, day := 1 },
           release_type := ReleaseType.Theatrical, note := some "A" },
         { date := { year := 2026, month := 5, day := 1 },
           release_type := ReleaseType.Theatrical, note := some "B" },
         { date := { year := 2026, month := 5, day := 1 },
           release_type := ReleaseType.Theatrical, note := some "A" }] := by
  rw [processCountry_theatrical_eq _ _
    [{ date := { year := 2026, month := 5, day := 1 },
       release_type := ReleaseType.Theatrical, note := some "A" },
     { date := { year := 2026, month := 5, day := 1 },
       release_type := ReleaseType.Theatrical, note := some "B" },
     { date := { year := 2026, month := 5, day := 1 },
       release_type := ReleaseType.Theatrical, note := some "A" }]
    [] [] [] (by decide)]
  have hsort : sortByDate
      [{ date := { year := 2026, month := 5, day := 1 },
         release_type := ReleaseType.Theatrical, note := some "A" },
       { date := { year := 2026, month := 5, day := 1 },
         release_type := ReleaseType.Theatrical, note := some "B" },
       { date := { year := 2026, month := 5, day := 1 },
         release_type := ReleaseType.Theatrical, note := some "A" }]
      = [{ date := { year := 2026, month := 5, day := 1 },
           release_type := ReleaseType.Theatrical, note := some "A" },
         { date := { year := 2026, month := 5, day := 1 },
           release_type := ReleaseType.Theatrical, note := some "B" },
         { date := { year := 2026, month := 5, day := 1 },
           release_type := ReleaseType.Theatrical, note := some "A" }] := by
    unfold sortByDate
    apply List.mergeSort_of_sorted
    simp [List.pairwise_cons, dateLE]
  simp only [hsort]
  simp [sortByDate, dedupByKey, releaseKey]

/-! ## Claim C10 -/

/-- A row whose conversion fails contributes nothing to the built
lists. -/
theorem rowsToLists_middle (bad : ReleaseRow)
    (hbad : rowToRelease bad = none) (A B : List ReleaseRow) :
    rowsToLists (A ++ bad :: B) = rowsToLists (A ++ B) := by
  unfold rowsToLists
  rw [List.filterMap_append, List.filterMap_cons, hbad,
    ← List.filterMap_append]

/-- Filtering through a list with a distinguished middle element. -/
theorem filter_middle (p : ReleaseRow → Bool) (bad : ReleaseRow)
    (A B : List ReleaseRow) :
    (A ++ bad :: B).filter p
      = if p bad = true then A.filter p ++ bad :: B.filter p
        else (A ++ B).filter p := by
  rw [List.filter_append, List.filter_cons, List.filter_append]
  by_cases hp : p bad = true
  · rw [if_pos hp, if_pos hp]
  · rw [if_neg hp, if_neg hp]

/-- **C10** (confirmed).  A persisted release row whose stored date
string does not parse as a calendar date, or whose stored release-type
code is neither 3 (Theatrical) nor 4 (Digital), is silently skipped by
the bulk read: `get_releases` returns exactly what it returns on the
store without that row, and in particular still succeeds. -/
theorem get_releases_skips_corrupt_row
    (ttl now : Int) (metas : List MetaRow) (rows1 rows2 : List ReleaseRow)
    (bad : ReleaseRow) (reqs : List (Int × String))
    (h : parseDate bad.release_date = none
       ∨ ReleaseType.from_tmdb_code bad.release_type = none) :
    get_releases ttl now { rows := rows1 ++ bad :: rows2, metas := metas } reqs
      = get_releases ttl now { rows := rows1 ++ rows2, metas := metas } reqs := by
  have hbad : rowToRelease bad = none := by
    unfold rowToRelease
    rcases h with h | h
    · rw [h]
    · cases hp : parseDate bad.release_date with
      | none => rfl
      | some d => rw [h]
  unfold get_releases
  split
  · rfl
  · dsimp only
    split
    · rfl
    · apply List.map_congr_left
      intro key _
      simp only [Prod.mk.injEq, true_and]
      rw [filter_middle]
      by_cases hp : ((List.map (fun p => p.1)
          ((List.filter (fun m =>
              (List.map (fun p => p.1) reqs).contains m.tmdb_id)
            metas).filterMap (fun m =>
              if (isReleaseFresh ttl now m.cached_at
                  && reqs.contains (m.tmdb_id, m.country)) = true
              then some (m.tmdb_id, m.country) else none))).contains
            bad.tmdb_id) = true
      · rw [if_pos hp, filter_middle]
        by_cases hq : ((bad.tmdb_id, bad.country) == key) = true
        · rw [if_pos hq, rowsToLists_middle bad hbad]
          simp [List.filter_append]
        · rw [if_neg hq]
          simp [List.filter_append]
      · rw [if_neg hp]

/-- **C10** witness: a store whose only release row carries an
unparseable date is read identically to the empty-rows store. -/
theorem get_releases_skips_corrupt_row_witness :
    get_releases 100 10
      { rows :=
          [{ tmdb_id := 1, country := "US", release_date := "not-a-date",
             release_type := 3, note := none, cached_at := 5 }],
        metas := [{ tmdb_id := 1, country := "US", cached_at := 5 }] }
      [(1, "US")]
      = get_releases 100 10
        { rows := [],
          metas := [{ tmdb_id := 1, country := "US", cached_at := 5 }] }
        [(1, "US")] :=
  get_releases_skips_corrupt_row 100 10
    [{ tmdb_id := 1, country := "US", cached_at := 5 }] [] []
    { tmdb_id := 1, country := "US", release_date := "not-a-date",
      release_type := 3, note := none, cached_at := 5 }
    [(1, "US")]
    (Or.inl (by decide))

/-! ## Claim C4 -/

/-- Membership in the fresh-request list computed by `get_releases`:
exactly the requested pairs backed by a fresh meta row. -/
theorem mem_fresh_requests (ttl now : Int) (metas : List MetaRow)
    (reqs : List (Int × String)) (q : Int × String) :
    q ∈ (metas.filter (fun m =>
        (reqs.map (fun p => p.1)).contains m.tmdb_id)).filterMap
      (fun m =>
        if (isReleaseFresh ttl now m.cached_at
            && reqs.contains (m.tmdb_id, m.country)) = true
        then some (m.tmdb_id, m.country) else none)
    ↔ q ∈ reqs ∧ ∃ m ∈ metas, (m.tmdb_id, m.country) = q
        ∧ now - m.cached_at ≤ ttl := by
  rw [List.mem_filterMap]
  constructor
  · rintro ⟨m, hm, hopt⟩
    rw [List.mem_filter] at hm
    by_cases hcond : (isReleaseFresh ttl now m.cached_at
        && reqs.contains (m.tmdb_id, m.country)) = true
    · rw [if_pos hcond] at hopt
      rw [Option.some.injEq] at hopt
      simp only [Bool.and_eq_true] at hcond
      subst hopt
      refine ⟨?_, m, hm.1, rfl, ?_⟩
      · have := hcond.2
        simpa using this
      · have := hcond.1
        simpa [isReleaseFresh] using this
    · rw [if_neg hcond] at hopt
      exact absurd hopt (by simp)
  · rintro ⟨hq, m, hm, hkey, hfresh⟩
    subst hkey
    refine ⟨m, ?_, ?_⟩
    · rw [List.mem_filter]
      refine ⟨hm, ?_⟩
      have : m.tmdb_id ∈ reqs.map (fun p => p.1) :=
        List.mem_map_of_mem _ hq
      simpa using this
    · rw [if_pos (by
        simp only [Bool.and_eq_true]
        exact ⟨by simpa [isReleaseFresh] using hfresh, by simpa using hq⟩)]

/-- **C4** (confirmed).  The bulk release read returns exactly the
requested (tmdb_id, country) pairs whose meta row exists and is fresh
(now − cached_at ≤ TTL): a fresh pair with no stored release rows still
appears, with empty theatrical and streaming lists, while a missing or
stale pair is simply absent from the result.  The modelled read is a
total function of the store — corrupt rows are skipped, never an
error. -/
theorem get_releases_spec (ttl now : Int) (s : ReleaseStore)
    (reqs : List (Int × String)) (p : Int × String) :
    (((get_releases ttl now s reqs).any (fun e => e.1 == p)) = true ↔
      p ∈ reqs ∧ ∃ m ∈ s.metas, (m.tmdb_id, m.country) = p
        ∧ now - m.cached_at ≤ ttl)
    ∧ ((∀ r ∈ s.rows, (r.tmdb_id, r.country) ≠ p) →
      ∀ e ∈ get_releases ttl now s reqs, e.1 = p → e.2 = ([], [])) := by
  constructor
  · unfold get_releases
    split
    · rename_i hreq
      have hnil : reqs = [] := by simpa [List.isEmpty_iff] using hreq
      subst hnil
      simp
    · dsimp only
      split
      · rename_i hfr
        simp only [List.any_nil, Bool.false_eq_true, false_iff, not_and]
        intro hp hex
        obtain ⟨m, hm, hkey, hfresh⟩ := hex
        have : p ∈ (s.metas.filter (fun m =>
            (reqs.map (fun p => p.1)).contains m.tmdb_id)).filterMap
          (fun m =>
            if (isReleaseFresh ttl now m.cached_at
                && reqs.contains (m.tmdb_id, m.country)) = true
            then some (m.tmdb_id, m.country) else none) :=
          (mem_fresh_requests ttl now s.metas reqs p).mpr
            ⟨hp, m, hm, hkey, hfresh⟩
        rw [List.isEmpty_iff] at hfr
        rw [hfr] at this
        simp at this
      · rw [← mem_fresh_requests ttl now s.metas reqs p]
        rw [List.any_eq_true]
        constructor
        · rintro ⟨e, he, hbeq⟩
          rw [List.mem_map] at he
          obtain ⟨key, hkey, rfl⟩ := he
          have : key = p := by simpa using hbeq
          exact this ▸ hkey
        · intro hp
          refine ⟨_, List.mem_map_of_mem _ hp, ?_⟩
          simp
  · intro hnorows e he hep
    unfold get_releases at he
    split at he
    · simp at he
    · dsimp only at he
      split at he
      · simp at he
      · rw [List.mem_map] at he
        obtain ⟨key, _, rfl⟩ := he
        have hkp : key = p := hep
        subst hkp
        have hfilter : (s.rows.filter (fun r =>
            (List.map (fun p => p.1)
              ((s.metas.filter (fun m =>
                  (reqs.map (fun p => p.1)).contains m.tmdb_id)).filterMap
                (fun m =>
                  if (isReleaseFresh ttl now m.cached_at
                      && reqs.contains (m.tmdb_id, m.country)) = true
                  then some (m.tmdb_id, m.country) else none))).contains
              r.tmdb_id)).filter
            (fun r => (r.tmdb_id, r.country) == key) = [] := by
          rw [List.filter_eq_nil_iff]
          intro r hr
          have hr2 := (List.mem_filter.mp hr).1
          have := hnorows r hr2
          simp only [ne_eq] at this
          simp [this]
        rw [hfilter]
        simp [rowsToLists, sortByDate]

/-- **C4** witness: a fresh meta row with no stored release rows yields
an entry with empty lists; the membership characterization applied at a
concrete store. -/
theorem get_releases_spec_witness :
    ((get_releases 100 10
        { rows := [],
          metas := [{ tmdb_id := 1, country := "US", cached_at := 5 }] }
        [(1, "US")]).any (fun e => e.1 == (1, "US"))) = true :=
  (get_releases_spec 100 10
      { rows := [],
        metas := [{ tmdb_id := 1, country := "US", cached_at := 5 }] }
      [(1, "US")] (1, "US")).1.mpr
    ⟨by decide,
     { tmdb_id := 1, country := "US", cached_at := 5 }, by decide, rfl,
     by decide⟩

/-! ## Claim C8, continued: deduplication of cached lists

The unique index `idx_release_cache_unique` (see `releaseIndexOk`)
forbids two rows of one (tmdb_id, country) pair from sharing
(release_date, release_type).  The stored date string determines the
parsed date injectively — `parseDate` accepts only the canonical
zero-padded `YYYY-MM-DD` form — so the lists `get_releases` returns
from such a store contain no two entries with identical
(date, kind, note). -/

theorem digitVal_toNat {c : Char} {v : Nat} (h : digitVal c = some v) :
    c.toNat = v + 48 ∧ v ≤ 9 := by
  unfold digitVal at h
  split at h
  · rename_i hd
    rw [Option.some.injEq] at h
    unfold Char.isDigit at hd
    simp only [Bool.and_eq_true, decide_eq_true_eq] at hd
    have h48 : (48 : UInt32).toNat ≤ c.val.toNat := hd.1
    have h57 : c.val.toNat ≤ (57 : UInt32).toNat := hd.2
    have e48 : (48 : UInt32).toNat = 48 := by decide
    have e57 : (57 : UInt32).toNat = 57 := by decide
    rw [e48] at h48
    rw [e57] at h57
    have hv : c.toNat = c.val.toNat := rfl
    omega
  · exact absurd h (by simp)

theorem digitVal_inj {c1 c2 : Char} {v : Nat} (h1 : digitVal c1 = some v)
    (h2 : digitVal c2 = some v) : c1 = c2 := by
  have e1 := (digitVal_toNat h1).1
  have e2 := (digitVal_toNat h2).1
  have hval : c1.val.toNat = c2.val.toNat := by
    have r1 : c1.toNat = c1.val.toNat := rfl
    have r2 : c2.toNat = c2.val.toNat := rfl
    omega
  exact Char.eq_of_val_eq (UInt32.ext hval)

/-- `parseDate` accepts exactly one string per date: the canonical
zero-padded ISO form. -/
theorem parseDate_inj {s1 s2 : String} {d : Date}
    (h1 : parseDate s1 = some d) (h2 : parseDate s2 = some d) : s1 = s2 := by
  unfold parseDate at h1 h2
  split at h1
  · rename_i y1 y2 y3 y4 m1 m2 d1 d2 heqs1
    split at h1
    · rename_i a b c dd e f g hh ha hb hc hd he hf hg hh8
      dsimp only at h1
      split at h1
      · rw [Option.some.injEq] at h1
        split at h2
        · rename_i q1 q2 q3 q4 n1 n2 e1 e2 heqs2
          split at h2
          · rename_i a' b' c' dd' e' f' g' hh' ha' hb' hc' hd' he' hf' hg' hh8'
            dsimp only at h2
            split at h2
            · rw [Option.some.injEq, ← h1, Date.mk.injEq] at h2
              obtain ⟨hy, hm, hdy⟩ := h2
              rw [Nat.cast_inj] at hy
              have ba := (digitVal_toNat ha).2
              have bb := (digitVal_toNat hb).2
              have bc := (digitVal_toNat hc).2
              have bd := (digitVal_toNat hd).2
              have be := (digitVal_toNat he).2
              have bf := (digitVal_toNat hf).2
              have bg := (digitVal_toNat hg).2
              have bh := (digitVal_toNat hh8).2
              have ba' := (digitVal_toNat ha').2
              have bb' := (digitVal_toNat hb').2
              have bc' := (digitVal_toNat hc').2
              have bd' := (digitVal_toNat hd').2
              have be' := (digitVal_toNat he').2
              have bf' := (digitVal_toNat hf').2
              have bg' := (digitVal_toNat hg').2
              have bh' := (digitVal_toNat hh8').2
              have ea : a' = a := by omega
              have eb : b' = b := by omega
              have ec : c' = c := by omega
              have ed : dd' = dd := by omega
              have ee : e' = e := by omega
              have ef : f' = f := by omega
              have eg : g' = g := by omega
              have eh : hh' = hh := by omega
              rw [ea] at ha'
              rw [eb] at hb'
              rw [ec] at hc'
              rw [ed] at hd'
              rw [ee] at he'
              rw [ef] at hf'
              rw [eg] at hg'
              rw [eh] at hh8'
              have hchars : s1.toList = s2.toList := by
                rw [heqs1, heqs2, digitVal_inj ha ha', digitVal_inj hb hb',
                  digitVal_inj hc hc', digitVal_inj hd hd',
                  digitVal_inj he he', digitVal_inj hf hf',
                  digitVal_inj hg hg', digitVal_inj hh8 hh8']
              exact String.ext hchars
            · exact absurd h2 (by simp)
          · exact absurd h2 (by simp)
        · exact absurd h2 (by simp)
      · exact absurd h1 (by simp)
    · exact absurd h1 (by simp)
  · exact absurd h1 (by simp)

theorem from_tmdb_code_inj {c1 c2 : Int} {k : ReleaseType}
    (h1 : ReleaseType.from_tmdb_code c1 = some k)
    (h2 : ReleaseType.from_tmdb_code c2 = some k) : c1 = c2 := by
  unfold ReleaseType.from_tmdb_code at h1 h2
  split at h1
  · split at h2
    · rename_i e1 e2
      rw [beq_iff_eq] at e1 e2
      rw [e1, e2]
    · split at h2
      · rw [Option.some.injEq] at h1 h2
        rw [← h1] at h2
        exact absurd h2 (by simp)
      · exact absurd h2 (by simp)
  · split at h1
    · split at h2
      · rw [Option.some.injEq] at h1 h2
        rw [← h1] at h2
        exact absurd h2 (by simp)
      · split at h2
        · rename_i e0 e1 e2' e3
          rw [beq_iff_eq] at e1 e3
          rw [e1, e3]
        · exact absurd h2 (by simp)
    · exact absurd h1 (by simp)

theorem rowToRelease_some {row : ReleaseRow} {rel : ReleaseDate}
    (h : rowToRelease row = some rel) :
    parseDate row.release_date = some rel.date
    ∧ ReleaseType.from_tmdb_code row.release_type = some rel.release_type
    ∧ row.note = rel.note := by
  unfold rowToRelease at h
  split at h
  · exact absurd h (by simp)
  · rename_i date hpd
    split at h
    · exact absurd h (by simp)
    · rename_i kind hck
      rw [Option.some.injEq] at h
      subst h
      exact ⟨hpd, hck, rfl⟩

/-- Rows pairwise distinct in (date string, type code) produce lists
with pairwise distinct (date, kind, note) — in fact distinct
(date, kind). -/
theorem rowsToLists_nodup (rows : List ReleaseRow)
    (hpw : rows.Pairwise (fun r1 r2 =>
      ¬(r1.release_date = r2.release_date
        ∧ r1.release_type = r2.release_type))) :
    (rowsToLists rows).1.Pairwise (fun a b =>
      ¬(a.date = b.date ∧ a.release_type = b.release_type ∧ a.note = b.note))
    ∧ (rowsToLists rows).2.Pairwise (fun a b =>
      ¬(a.date = b.date ∧ a.release_type = b.release_type ∧ a.note = b.note)) := by
  have hsymm : Symmetric (fun a b : ReleaseDate =>
      ¬(a.date = b.date ∧ a.release_type = b.release_type
        ∧ a.note = b.note)) := by
    intro a b hab hba
    exact hab ⟨hba.1.symm, hba.2.1.symm, hba.2.2.symm⟩
  have hparsed : (rows.filterMap rowToRelease).Pairwise (fun a b =>
      ¬(a.date = b.date ∧ a.release_type = b.release_type
        ∧ a.note = b.note)) := by
    rw [List.pairwise_filterMap]
    refine hpw.imp ?_
    intro r1 r2 hne x hx y hy hcontra
    rw [Option.mem_def] at hx hy
    obtain ⟨hp1, hc1, _⟩ := rowToRelease_some hx
    obtain ⟨hp2, hc2, _⟩ := rowToRelease_some hy
    rw [← hcontra.1] at hp2
    rw [← hcontra.2.1] at hc2
    exact hne ⟨parseDate_inj hp1 hp2, from_tmdb_code_inj hc1 hc2⟩
  constructor
  · unfold rowsToLists sortByDate
    dsimp only
    exact ((List.mergeSort_perm _ _).pairwise_iff
      (fun h => hsymm h)).mpr (hparsed.filter _)
  · unfold rowsToLists sortByDate
    dsimp only
    exact ((List.mergeSort_perm _ _).pairwise_iff
      (fun h => hsymm h)).mpr (hparsed.filter _)

/-- **C8** (corrected), amended claim.  Entries within every list the
upstream fetch produces or the cache read returns are sorted by date
ascending.  Fetched lists contain no two *adjacent* entries with
identical (date, kind, note), but non-adjacent duplicates survive (the
stable sort orders by date only, so equal-key entries can be separated
by a same-date entry with a different key — see the counterexample).
Cached lists do collapse duplicates: under the `release_cache` unique
index (`releaseIndexOk`, from migration m20220101) no two returned
entries of one pair share (date, kind), hence none share
(date, kind, note). -/
theorem release_lists_sorted_spec :
    (∀ (today : Date) (rc : RawCountry),
      ((processCountry today rc).theatrical.Pairwise
          (fun a b => dateLE a.date b.date = true)
        ∧ (processCountry today rc).streaming.Pairwise
            (fun a b => dateLE a.date b.date = true))
      ∧ ((processCountry today rc).theatrical.Chain'
            (fun a b => releaseKey a ≠ releaseKey b)
        ∧ (processCountry today rc).streaming.Chain'
            (fun a b => releaseKey a ≠ releaseKey b)))
    ∧ (∀ (ttl now : Int) (s : ReleaseStore) (reqs : List (Int × String)) e,
        e ∈ get_releases ttl now s reqs →
        e.2.1.Pairwise (fun a b => dateLE a.date b.date = true)
        ∧ e.2.2.Pairwise (fun a b => dateLE a.date b.date = true))
    ∧ (∀ (ttl now : Int) (s : ReleaseStore) (reqs : List (Int × String)) e,
        releaseIndexOk s → e ∈ get_releases ttl now s reqs →
        e.2.1.Pairwise (fun a b =>
          ¬(a.date = b.date ∧ a.release_type = b.release_type
            ∧ a.note = b.note))
        ∧ e.2.2.Pairwise (fun a b =>
          ¬(a.date = b.date ∧ a.release_type = b.release_type
            ∧ a.note = b.note))) := by
  refine ⟨?_, ?_, ?_⟩
  · intro today rc
    rcases hsplit : splitReleases today rc.release_dates with ⟨tf, sf, tp, sp⟩
    have ht := dedup_sort_or_singleton_good tf _
      (processCountry_theatrical_shape today rc tf sf tp sp hsplit)
    have hs := dedup_sort_or_singleton_good sf _
      (processCountry_streaming_shape today rc tf sf tp sp hsplit)
    exact ⟨⟨ht.1, hs.1⟩, ⟨ht.2, hs.2⟩⟩
  · intro ttl now s reqs e he
    unfold get_releases at he
    split at he
    · simp at he
    · dsimp only at he
      split at he
      · simp at he
      · rw [List.mem_map] at he
        obtain ⟨key, _, rfl⟩ := he
        constructor
        · exact sortByDate_pairwise _
        · exact sortByDate_pairwise _
  · intro ttl now s reqs e hidx he
    have hidx' : s.rows.Pairwise (fun r1 r2 =>
        ¬(r1.tmdb_id = r2.tmdb_id ∧ r1.country = r2.country
          ∧ r1.release_date = r2.release_date
          ∧ r1.release_type = r2.release_type)) := hidx
    unfold get_releases at he
    split at he
    · simp at he
    · dsimp only at he
      split at he
      · simp at he
      · rw [List.mem_map] at he
        obtain ⟨key, _, rfl⟩ := he
        apply rowsToLists_nodup
        refine List.Pairwise.imp_of_mem ?_ ((hidx'.filter _).filter _)
        intro r1 r2 hm1 hm2 hrel hcontra
        have hk1 := (List.mem_filter.mp hm1).2
        have hk2 := (List.mem_filter.mp hm2).2
        rw [beq_iff_eq] at hk1 hk2
        have hkk := hk1.trans hk2.symm
        exact hrel ⟨congrArg Prod.fst hkk, congrArg Prod.snd hkk,
          hcontra.1, hcontra.2⟩

/-- **C8** witness: the amended claim applied at a concrete country
payload (sortedness of a fetched list) and at a concrete store
satisfying the unique index, with one fresh rowless pair (dedup of the
returned lists). -/
theorem release_lists_sorted_spec_witness :
    (processCountry { year := 2026, month := 1, day := 1 }
        { iso_3166_1 := "GB",
          release_dates :=
            [{ date := { year := 2026, month := 4, day := 2 }, type_ := 4,
               note := none }] }).streaming.Pairwise
      (fun a b => dateLE a.date b.date = true)
    ∧ (([] : List ReleaseDate).Pairwise (fun a b =>
        ¬(a.date = b.date ∧ a.release_type = b.release_type
          ∧ a.note = b.note))
      ∧ ([] : List ReleaseDate).Pairwise (fun a b =>
        ¬(a.date = b.date ∧ a.release_type = b.release_type
          ∧ a.note = b.note))) :=
  ⟨((release_lists_sorted_spec).1 { year := 2026, month := 1, day := 1 }
      { iso_3166_1 := "GB",
        release_dates :=
          [{ date := { year := 2026, month := 4, day := 2 }, type_ := 4,
             note := none }] }).1.2,
   (release_lists_sorted_spec).2.2 100 10
     { rows := [], metas := [{ tmdb_id := 1, country := "US", cached_at := 5 }] }
     [(1, "US")] ((1, "US"), ([], []))
     List.Pairwise.nil
     (by
       have hval : get_releases 100 10
           { rows := [],
             metas := [{ tmdb_id := 1, country := "US", cached_at := 5 }] }
           [(1, "US")]
           = [((1, "US"), ([], []))] := by
         simp [get_releases, rowsToLists, sortByDate, isReleaseFresh]
       rw [hval]
       simp)⟩
